import Mathlib

/-!
Particle store, spawner and integrator of `src/Instancing/Main.cpp`.

A shallow embedding of the simulation core of the frame loop of `main`
(lines 335-400 of `Main.cpp`): the spawn block, the spawn-interval accumulator
and the integration loop, together with the global and function-static variables
they read and write.

Modelling conventions.

* `int` variables are `Int`.  Every index stays below `4 * MAX_PARTICLES = 4 * 10^7`,
  far inside the 32-bit range, so no wrap-around is modelled.
* `GLfloat` / `double` values are rationals, and `+`, `*`, unary `-` and the
  comparisons of the program are taken exactly.  Every constant of the source
  (`1000000000.0f`, `50.0f`, `0.0001`, the direction table) is a rational number.
* The narrowing casts `(GLfloat)xpos`, `(GLfloat)ypos` of lines 369-370 are modelled
  by `toGLfloat`, rounding to the nearest single-precision value.
* The three static arrays are total maps `Int → ℚ` (a slot per index), written with
  `Function.update`.
* What the windowing library and libc return during a frame is an `Input`.
-/

namespace Instancing

/-! ## Constants (`Main.cpp` lines 19-26) -/

/-- Line 19: `const float BOUNDARY_WIDTH = 1000000000.0f;` -/
def BOUNDARY_WIDTH : ℚ := 1000000000

/-- Line 20: `const float BOUNDARY_HEIGHT = 1000000000.0f;` -/
def BOUNDARY_HEIGHT : ℚ := 1000000000

/-- Line 22: `const int MAX_PARTICLES = 10000000;` -/
def MAX_PARTICLES : Int := 10000000

/-- Line 24: `const float PARTICLE_SPEED = 50.0f;` -/
def PARTICLE_SPEED : ℚ := 50

/-- Line 26: `const double SPAWN_TIME = 0.0001;` -/
def SPAWN_TIME : ℚ := 1 / 10000

/-- Lines 335-352: `static GLfloat vectors[16][2]`, the fixed direction table.
Rows outside `0..15` (never read by the program) are given as `(0, 0)`. -/
def vectors (i : Nat) : ℚ × ℚ :=
  match i with
  | 0 => (0, 1)
  | 1 => (0, -1)
  | 2 => (1, 0)
  | 3 => (-1, 0)
  | 4 => (1/2, 1/2)
  | 5 => (1/2, -1/2)
  | 6 => (-1/2, 1/2)
  | 7 => (-1/2, -1/2)
  | 8 => (-1/4, 3/4)
  | 9 => (-3/4, 1/4)
  | 10 => (-3/4, -1/4)
  | 11 => (-1/4, -3/4)
  | 12 => (1/4, 3/4)
  | 13 => (3/4, 1/4)
  | 14 => (3/4, -1/4)
  | 15 => (1/4, -3/4)
  | _ => (0, 0)

/-! ## State and inputs -/

/-- The variables the simulation core reads and writes:
the globals `num_particles` (line 28) and `time` (line 30), the function-static arrays
and write cursors of lines 221-228, the function-static `update_time` (line 359),
and the number of calls made to `rand()` so far (the hidden state of libc). -/
structure State where
  num_particles : Int
  time : ℚ
  position_buffer_data : Int → ℚ
  position_index : Int
  color_buffer_data : Int → ℚ
  color_index : Int
  vector_data : Int → ℚ
  vector_index : Int
  update_time : ℚ
  rand_calls : Nat

/-- What the environment supplies during one frame:
`left_pressed` is `glfwGetMouseButton(window, GLFW_MOUSE_BUTTON_LEFT) == GLFW_PRESS`
(line 360); `xpos`, `ypos` are the cursor's world position after lines 354-357;
`rand n` is the value returned by the `n`-th call of `rand()`; `elapsed` is the
value `glfwGetTime() - last_time` that `clock()` stores into `time` (line 180). -/
structure Input where
  left_pressed : Bool
  xpos : ℚ
  ypos : ℚ
  rand : Nat → Nat
  elapsed : ℚ

/-- The state when the frame loop is entered: `num_particles = 0` (line 28),
`time = 0.0` (line 30), zero-initialised static arrays and cursors (lines 221-228),
and `update_time` initialised from `time`, which is still `0.0` (line 359). -/
def init : State where
  num_particles := 0
  time := 0
  position_buffer_data := fun _ => 0
  position_index := 0
  color_buffer_data := fun _ => 0
  color_index := 0
  vector_data := fun _ => 0
  vector_index := 0
  update_time := 0
  rand_calls := 0

/-! ## The narrowing cast `double → GLfloat` -/

/-- The power `2 ^ k` for an integer exponent. -/
def pow2 (k : Int) : ℚ :=
  if 0 ≤ k then ((2 ^ k.toNat : Nat) : ℚ) else 1 / ((2 ^ (-k).toNat : Nat) : ℚ)

/-- The number of halvings that bring `n` below 2, at most `fuel` of them;
`bitLog n n` is the position of the leading bit of `n ≥ 1`. -/
def bitLog : Nat → Nat → Nat
  | 0, _ => 0
  | fuel + 1, n => if n < 2 then 0 else bitLog fuel (n / 2) + 1

/-- The binary exponent of a positive rational `x = n / d`: the `e` with
`2 ^ e ≤ x < 2 ^ (e + 1)`, found from the leading bits of `n` and `d`. -/
def floorLog2 (x : ℚ) : Int :=
  let n := x.num.natAbs
  let d := x.den
  let a := bitLog n n
  let b := bitLog d d
  if d * 2 ^ a ≤ n * 2 ^ b then (a : Int) - b else (a : Int) - b - 1

/-- Rounding to the nearest integer, ties to the even one. -/
def roundHalfEven (q : ℚ) : Int :=
  if q - ⌊q⌋ < 1 / 2 then ⌊q⌋
  else if 1 / 2 < q - ⌊q⌋ then ⌊q⌋ + 1
  else if ⌊q⌋ % 2 = 0 then ⌊q⌋ else ⌊q⌋ + 1

/-- The casts of lines 369-370, `(GLfloat)xpos` and `(GLfloat)ypos`: the nearest
single-precision value (24-bit significand, exponent at least `-126`, ties to even).
The casts are only executed for a cursor inside the bounds (`|x| < 10^9`), far below
the single-precision overflow threshold, so no infinity is modelled. -/
def toGLfloat (x : ℚ) : ℚ :=
  if x = 0 then 0
  else (roundHalfEven (x / pow2 (max (floorLog2 |x|) (-126) - 23)) : ℚ)
    * pow2 (max (floorLog2 |x|) (-126) - 23)

/-! ## The spawn block (lines 360-380) -/

/-- Lines 360-363: the condition of the `if` guarding the spawn loop. -/
def spawnGate (inp : Input) (s : State) : Bool :=
  inp.left_pressed &&
  decide (s.update_time > SPAWN_TIME) &&
  decide (s.num_particles ≠ MAX_PARTICLES) &&
  decide (inp.xpos < BOUNDARY_WIDTH) && decide (inp.xpos > -BOUNDARY_WIDTH) &&
  decide (inp.ypos < BOUNDARY_HEIGHT) && decide (inp.ypos > -BOUNDARY_HEIGHT)

/-- Line 371: one colour channel, `(rand() % 100) / 100.0f`. -/
def channel (r : Nat) : ℚ := ((r % 100 : Nat) : ℚ) / 100

/-- Lines 365-378: the body of the spawn loop for loop counter `i`. -/
def spawnBody (inp : Input) (s : State) (i : Nat) : State :=
  if s.num_particles < MAX_PARTICLES then
    { s with
      vector_data :=
        Function.update
          (Function.update s.vector_data s.vector_index (vectors i).1)
          (s.vector_index + 1) (vectors i).2
      vector_index := s.vector_index + 2
      position_buffer_data :=
        Function.update
          (Function.update s.position_buffer_data s.position_index (toGLfloat inp.xpos))
          (s.position_index + 1) (toGLfloat inp.ypos)
      position_index := s.position_index + 2
      color_buffer_data :=
        Function.update
          (Function.update
            (Function.update
              (Function.update s.color_buffer_data s.color_index
                (channel (inp.rand s.rand_calls)))
              (s.color_index + 1) (channel (inp.rand (s.rand_calls + 1))))
            (s.color_index + 2) (channel (inp.rand (s.rand_calls + 2))))
          (s.color_index + 3) 1
      color_index := s.color_index + 4
      rand_calls := s.rand_calls + 3
      num_particles := s.num_particles + 1
      update_time := 0 }
  else s

/-- Lines 364-379: `for (int i = 0; i < 16; ++i) { ... }`. -/
def spawnLoop (inp : Input) (s : State) : State :=
  (List.range 16).foldl (spawnBody inp) s

/-- Lines 360-380: the spawn attempt of one frame. -/
def spawn (inp : Input) (s : State) : State :=
  if spawnGate inp s then spawnLoop inp s else s

/-- The number of particles a spawn attempt creates. -/
def numSpawned (inp : Input) (s : State) : Int :=
  (spawn inp s).num_particles - s.num_particles

/-! ## The integration loop (lines 384-397) -/

/-- Lines 385-396: one pass through the body of the integration loop, entered with
loop counter `i` (the x slot of a particle); the body itself advances `i` once
(`++i` in line 392), so the y slot is `i + 1`.

Line 392 is `position_buffer_data[++i] += vector_data[i] * PARTICLE_SPEED * time;`.
The increment in the subscript is applied first and `vector_data[i]` is then read at
the incremented index: the y position is advanced by the y direction component, so
that lines 392-396 do on slot `i + 1` what lines 385-390 do on slot `i`. -/
def integrateBody (time : ℚ) (i : Int) (s : State) : State :=
  -- line 385
  let p1 := Function.update s.position_buffer_data i
    (s.position_buffer_data i + s.vector_data i * PARTICLE_SPEED * time)
  -- lines 387-390
  let hitx : Bool := decide (p1 i ≥ BOUNDARY_WIDTH ∨ p1 i ≤ -BOUNDARY_WIDTH)
  let v2 := if hitx then Function.update s.vector_data i (-(s.vector_data i)) else s.vector_data
  let p2 := if hitx then Function.update p1 i (p1 i + v2 i * PARTICLE_SPEED * time) else p1
  -- line 392: `++i`, then the read of `vector_data[i]` and the write
  let j := i + 1
  let p3 := Function.update p2 j (p2 j + v2 j * PARTICLE_SPEED * time)
  -- lines 393-396
  let hity : Bool := decide (p3 j ≥ BOUNDARY_HEIGHT ∨ p3 j ≤ -BOUNDARY_HEIGHT)
  let v4 := if hity then Function.update v2 j (-(v2 j)) else v2
  let p4 := if hity then Function.update p3 j (p3 j + v4 j * PARTICLE_SPEED * time) else p3
  { s with position_buffer_data := p4, vector_data := v4 }

/-- Lines 384-397: `for (int i = 0; i < num_particles * 2; ++i) { ... }` entered with
loop counter `i`; each pass advances `i` by two (once in line 392, once in the loop
header).  `fuel` bounds the number of passes. -/
def integrateLoop (time : ℚ) : Nat → Int → State → State
  | 0, _, s => s
  | fuel + 1, i, s =>
    if i < s.num_particles * 2 then integrateLoop time fuel (i + 2) (integrateBody time i s)
    else s

/-- Lines 384-397: the integration step of one frame with elapsed time `time`.
`num_particles` passes suffice (`integrateLoop_fuel`). -/
def integrate (time : ℚ) (s : State) : State :=
  integrateLoop time s.num_particles.toNat 0 s

/-! ## One frame -/

/-- Line 381: `update_time += time;`. -/
def accumulate (s : State) : State :=
  { s with update_time := s.update_time + s.time }

/-- Line 180 of `clock()`: `time = glfwGetTime() - last_time;`. -/
def clock (inp : Input) (s : State) : State :=
  { s with time := inp.elapsed }

/-- One pass through the body of the frame loop (lines 267-401) on the simulation
state: spawn attempt, accumulator update, integration with the current `time`, then
`clock()`.  Rendering and camera code do not write any of these variables. -/
def frame (inp : Input) (s : State) : State :=
  let s1 := accumulate (spawn inp s)
  clock inp (integrate s1.time s1)

/-- The state after a sequence of frames. -/
def run (inps : List Input) (s : State) : State :=
  inps.foldl (fun st inp => frame inp st) s

/-- The states at the top of the frame loop that the program can be in. -/
inductive Reachable : State → Prop
  | start : Reachable init
  | step {s : State} (inp : Input) : Reachable s → Reachable (frame inp s)

/-! ## Particles as values -/

/-- A particle: the four floats at a shared particle index, `position_buffer_data[2k]`,
`position_buffer_data[2k+1]`, `vector_data[2k]`, `vector_data[2k+1]`. -/
structure Particle where
  x : ℚ
  y : ℚ
  dx : ℚ
  dy : ℚ
  deriving DecidableEq

/-- The particle stored at particle index `k`. -/
def particle (s : State) (k : Int) : Particle :=
  ⟨s.position_buffer_data (2 * k), s.position_buffer_data (2 * k + 1),
   s.vector_data (2 * k), s.vector_data (2 * k + 1)⟩

/-- Lines 385-396 on the four values of one particle: what `integrateBody` does to
the slots of the particle it is entered for (`integrateBody_particle`). -/
def stepParticle (time : ℚ) (p : Particle) : Particle :=
  let x1 := p.x + p.dx * PARTICLE_SPEED * time
  let hitx : Bool := decide (x1 ≥ BOUNDARY_WIDTH ∨ x1 ≤ -BOUNDARY_WIDTH)
  let dx2 := if hitx then -p.dx else p.dx
  let x2 := if hitx then x1 + dx2 * PARTICLE_SPEED * time else x1
  let y3 := p.y + p.dy * PARTICLE_SPEED * time
  let hity : Bool := decide (y3 ≥ BOUNDARY_HEIGHT ∨ y3 ≤ -BOUNDARY_HEIGHT)
  let dy4 := if hity then -p.dy else p.dy
  let y4 := if hity then y3 + dy4 * PARTICLE_SPEED * time else y3
  ⟨x2, y4, dx2, dy4⟩

/-- The reference integrator of the specification, written from its words: per axis,
x then y, `position += direction_component * PARTICLE_SPEED * elapsed_time`; if the
resulting coordinate meets or exceeds `+boundary` or meets or is below `-boundary` on
that axis, negate the direction component for that axis and re-apply the same
displacement once more using the corrected direction. -/
def advanceRef (time : ℚ) (p : Particle) : Particle :=
  let x1 := p.x + p.dx * PARTICLE_SPEED * time
  let hitx : Bool := decide (x1 ≥ BOUNDARY_WIDTH ∨ x1 ≤ -BOUNDARY_WIDTH)
  let dx2 := if hitx then -p.dx else p.dx
  let x2 := if hitx then x1 + dx2 * PARTICLE_SPEED * time else x1
  let y1 := p.y + p.dy * PARTICLE_SPEED * time
  let hity : Bool := decide (y1 ≥ BOUNDARY_HEIGHT ∨ y1 ≤ -BOUNDARY_HEIGHT)
  let dy2 := if hity then -p.dy else p.dy
  let y2 := if hity then y1 + dy2 * PARTICLE_SPEED * time else y1
  ⟨x2, y2, dx2, dy2⟩

/-- The squared length `dx² + dy²` of a particle's direction. -/
def dirSq (p : Particle) : ℚ := p.dx ^ 2 + p.dy ^ 2

/-- Both coordinates of the particle are strictly inside the world bounds. -/
def insideBounds (p : Particle) : Prop :=
  -BOUNDARY_WIDTH < p.x ∧ p.x < BOUNDARY_WIDTH ∧ -BOUNDARY_HEIGHT < p.y ∧ p.y < BOUNDARY_HEIGHT

/-- Both coordinates of the particle are within the closed world bounds. -/
def withinBounds (p : Particle) : Prop :=
  -BOUNDARY_WIDTH ≤ p.x ∧ p.x ≤ BOUNDARY_WIDTH ∧ -BOUNDARY_HEIGHT ≤ p.y ∧ p.y ≤ BOUNDARY_HEIGHT

/-- Every live particle is within the closed world bounds. -/
def AllWithin (s : State) : Prop :=
  ∀ k : Int, 0 ≤ k → k < s.num_particles → withinBounds (particle s k)

/-- Every live particle is strictly inside the world bounds. -/
def AllInside (s : State) : Prop :=
  ∀ k : Int, 0 ≤ k → k < s.num_particles → insideBounds (particle s k)

/-- The casts of lines 369-370 are exact on the cursor position of this frame. -/
def CastExact (inp : Input) : Prop :=
  toGLfloat inp.xpos = inp.xpos ∧ toGLfloat inp.ypos = inp.ypos

/-- The position a spawn of this frame stores is strictly inside the bounds whenever
the cursor is. -/
def StoresInside (inp : Input) : Prop :=
  (-BOUNDARY_WIDTH < inp.xpos ∧ inp.xpos < BOUNDARY_WIDTH ∧
    -BOUNDARY_HEIGHT < inp.ypos ∧ inp.ypos < BOUNDARY_HEIGHT) →
  (-BOUNDARY_WIDTH < toGLfloat inp.xpos ∧ toGLfloat inp.xpos < BOUNDARY_WIDTH ∧
    -BOUNDARY_HEIGHT < toGLfloat inp.ypos ∧ toGLfloat inp.ypos < BOUNDARY_HEIGHT)

/-- The three write cursors agree with the live count, which is within capacity. -/
def Aligned (s : State) : Prop :=
  0 ≤ s.num_particles ∧ s.num_particles ≤ MAX_PARTICLES ∧
  s.position_index = 2 * s.num_particles ∧ s.vector_index = 2 * s.num_particles ∧
  s.color_index = 4 * s.num_particles

/-- Successive integration steps with the elapsed times `dts`. -/
def integrateMany (dts : List ℚ) (s : State) : State :=
  dts.foldl (fun st dt => integrate dt st) s

/-- Successive `stepParticle`s of one particle with the elapsed times `dts`. -/
def stepMany (dts : List ℚ) (p : Particle) : Particle :=
  dts.foldl (fun q dt => stepParticle dt q) p

/-- The number of passes of the spawn loop that find room: `min(16, free slots)`. -/
def batch (s : State) : Nat := min 16 (MAX_PARTICLES - s.num_particles).toNat

/-- Every live particle's direction has squared length `1`, `1/2` or `5/8`. -/
def DirLengths (s : State) : Prop :=
  ∀ k : Int, 0 ≤ k → k < s.num_particles →
    dirSq (particle s k) = 1 ∨ dirSq (particle s k) = 1 / 2 ∨ dirSq (particle s k) = 5 / 8

/-! ## Concrete inputs and states for the examples -/

/-- A frame in which the left button is up and `clock()` measures `e`. -/
def idleInput (e : ℚ) : Input := ⟨false, 0, 0, fun _ => 0, e⟩

/-- A frame in which the left button is down with the cursor at world position
`(x, y)`, and `clock()` measures `e`. -/
def armedInput (x y e : ℚ) : Input := ⟨true, x, y, fun n => 7 * n + 3, e⟩

/-- The state after two idle frames of one second each: no particles, `time = 1`,
`update_time = 1`. -/
def warmedUp : State := run [idleInput 1, idleInput 1] init

/-- A store filled to capacity. -/
def fullStore : State :=
  { init with
    num_particles := MAX_PARTICLES
    position_index := 2 * MAX_PARTICLES
    vector_index := 2 * MAX_PARTICLES
    color_index := 4 * MAX_PARTICLES
    update_time := 1 }

/-- A store three particles short of capacity. -/
def nearFull : State :=
  { init with
    num_particles := MAX_PARTICLES - 3
    position_index := 2 * (MAX_PARTICLES - 3)
    vector_index := 2 * (MAX_PARTICLES - 3)
    color_index := 4 * (MAX_PARTICLES - 3)
    update_time := 1 }

/-- A store holding the single particle `p`. -/
def single (p : Particle) : State :=
  { init with
    num_particles := 1
    position_index := 2
    vector_index := 2
    color_index := 4
    position_buffer_data := fun i => if i = 0 then p.x else if i = 1 then p.y else 0
    vector_data := fun i => if i = 0 then p.dx else if i = 1 then p.dy else 0 }

/-! ## The spawn loop -/

theorem spawnBody_of_not_lt (inp : Input) (s : State) (i : Nat)
    (h : ¬ s.num_particles < MAX_PARTICLES) : spawnBody inp s i = s := by
  simp [spawnBody, h]

theorem foldl_spawnBody_of_not_lt (inp : Input) (l : List Nat) (s : State)
    (h : ¬ s.num_particles < MAX_PARTICLES) : l.foldl (spawnBody inp) s = s := by
  induction l with
  | nil => rfl
  | cons a l ih => rw [List.foldl_cons, spawnBody_of_not_lt inp s a h, ih]

/-- The scalar variables after `k` passes of the spawn loop that all find room. -/
theorem foldl_spawnBody_scalars (inp : Input) :
    ∀ (k a : Nat) (s : State), (k = 0 ∨ s.num_particles + k ≤ MAX_PARTICLES) →
      ((List.range' a k).foldl (spawnBody inp) s).num_particles = s.num_particles + k ∧
      ((List.range' a k).foldl (spawnBody inp) s).vector_index = s.vector_index + 2 * k ∧
      ((List.range' a k).foldl (spawnBody inp) s).position_index = s.position_index + 2 * k ∧
      ((List.range' a k).foldl (spawnBody inp) s).color_index = s.color_index + 4 * k ∧
      ((List.range' a k).foldl (spawnBody inp) s).rand_calls = s.rand_calls + 3 * k ∧
      ((List.range' a k).foldl (spawnBody inp) s).time = s.time ∧
      ((List.range' a k).foldl (spawnBody inp) s).update_time
        = if k = 0 then s.update_time else 0 := by
  intro k
  induction k with
  | zero => intro a s _; simp
  | succ k ih =>
    intro a s h
    have hlt : s.num_particles < MAX_PARTICLES := by omega
    have hk : k = 0 ∨ (spawnBody inp s a).num_particles + k ≤ MAX_PARTICLES := by
      right; simp [spawnBody, hlt]; omega
    obtain ⟨h1, h2, h3, h4, h5, h6, h7⟩ := ih (a + 1) (spawnBody inp s a) hk
    rw [List.range'_succ, List.foldl_cons]
    refine ⟨?_, ?_, ?_, ?_, ?_, ?_, ?_⟩
    · rw [h1]; simp [spawnBody, hlt]; omega
    · rw [h2]; simp [spawnBody, hlt]; omega
    · rw [h3]; simp [spawnBody, hlt]; omega
    · rw [h4]; simp [spawnBody, hlt]; omega
    · rw [h5]; simp [spawnBody, hlt]; omega
    · rw [h6]; simp [spawnBody, hlt]
    · rw [h7]; simp [spawnBody, hlt]

theorem spawnBody_of_lt_vector (inp : Input) (s : State) (i : Nat)
    (h : s.num_particles < MAX_PARTICLES) :
    (spawnBody inp s i).vector_index = s.vector_index + 2 ∧
    (spawnBody inp s i).vector_data =
      Function.update (Function.update s.vector_data s.vector_index (vectors i).1)
        (s.vector_index + 1) (vectors i).2 := by
  simp [spawnBody, h]

theorem spawnBody_of_lt_position (inp : Input) (s : State) (i : Nat)
    (h : s.num_particles < MAX_PARTICLES) :
    (spawnBody inp s i).position_index = s.position_index + 2 ∧
    (spawnBody inp s i).position_buffer_data =
      Function.update
        (Function.update s.position_buffer_data s.position_index (toGLfloat inp.xpos))
        (s.position_index + 1) (toGLfloat inp.ypos) := by
  simp [spawnBody, h]

theorem spawnBody_of_lt_num (inp : Input) (s : State) (i : Nat)
    (h : s.num_particles < MAX_PARTICLES) :
    (spawnBody inp s i).num_particles = s.num_particles + 1 := by
  simp [spawnBody, h]

/-- The direction array after `k` passes of the spawn loop that all find room: slots
outside the `2 * k` slots starting at the write cursor are untouched, and pass `j`
stored row `a + j` of the table. -/
theorem foldl_spawnBody_vector (inp : Input) :
    ∀ (k a : Nat) (s : State), (k = 0 ∨ s.num_particles + k ≤ MAX_PARTICLES) →
      (∀ x : Int, (x < s.vector_index ∨ s.vector_index + 2 * k ≤ x) →
        ((List.range' a k).foldl (spawnBody inp) s).vector_data x = s.vector_data x) ∧
      (∀ j : Nat, j < k →
        ((List.range' a k).foldl (spawnBody inp) s).vector_data (s.vector_index + 2 * j)
          = (vectors (a + j)).1 ∧
        ((List.range' a k).foldl (spawnBody inp) s).vector_data (s.vector_index + 2 * j + 1)
          = (vectors (a + j)).2) := by
  intro k
  induction k with
  | zero => intro a s _; simp
  | succ k ih =>
    intro a s h
    have hlt : s.num_particles < MAX_PARTICLES := by omega
    obtain ⟨hvi, hvd⟩ := spawnBody_of_lt_vector inp s a hlt
    have hnum := spawnBody_of_lt_num inp s a hlt
    have hk : k = 0 ∨ (spawnBody inp s a).num_particles + k ≤ MAX_PARTICLES := by
      right; rw [hnum]; omega
    obtain ⟨ih1, ih2⟩ := ih (a + 1) (spawnBody inp s a) hk
    rw [List.range'_succ, List.foldl_cons]
    rw [hvi] at ih1 ih2
    constructor
    · intro x hx
      rw [ih1 x (by omega), hvd]
      rw [Function.update_noteq (by omega), Function.update_noteq (by omega)]
    · intro j hj
      cases j with
      | zero =>
        have z : s.vector_index + 2 * ((0 : Nat) : Int) = s.vector_index := by simp
        rw [z]
        constructor
        · rw [ih1 _ (by omega), hvd, Function.update_noteq (by omega), Function.update_same]
          rfl
        · rw [ih1 _ (by omega), hvd, Function.update_same]
          rfl
      | succ j =>
        obtain ⟨e1, e2⟩ := ih2 j (by omega)
        have i1 : s.vector_index + 2 * ((j + 1 : Nat) : Int) = s.vector_index + 2 + 2 * (j : Int) := by
          push_cast; ring
        have i2 : a + (j + 1) = a + 1 + j := by omega
        rw [i1, i2]
        exact ⟨e1, e2⟩

/-- The position array after `k` passes of the spawn loop that all find room. -/
theorem foldl_spawnBody_position (inp : Input) :
    ∀ (k a : Nat) (s : State), (k = 0 ∨ s.num_particles + k ≤ MAX_PARTICLES) →
      (∀ x : Int, (x < s.position_index ∨ s.position_index + 2 * k ≤ x) →
        ((List.range' a k).foldl (spawnBody inp) s).position_buffer_data x
          = s.position_buffer_data x) ∧
      (∀ j : Nat, j < k →
        ((List.range' a k).foldl (spawnBody inp) s).position_buffer_data
            (s.position_index + 2 * j) = toGLfloat inp.xpos ∧
        ((List.range' a k).foldl (spawnBody inp) s).position_buffer_data
            (s.position_index + 2 * j + 1) = toGLfloat inp.ypos) := by
  intro k
  induction k with
  | zero => intro a s _; simp
  | succ k ih =>
    intro a s h
    have hlt : s.num_particles < MAX_PARTICLES := by omega
    obtain ⟨hpi, hpd⟩ := spawnBody_of_lt_position inp s a hlt
    have hnum := spawnBody_of_lt_num inp s a hlt
    have hk : k = 0 ∨ (spawnBody inp s a).num_particles + k ≤ MAX_PARTICLES := by
      right; rw [hnum]; omega
    obtain ⟨ih1, ih2⟩ := ih (a + 1) (spawnBody inp s a) hk
    rw [List.range'_succ, List.foldl_cons]
    rw [hpi] at ih1 ih2
    constructor
    · intro x hx
      rw [ih1 x (by omega), hpd]
      rw [Function.update_noteq (by omega), Function.update_noteq (by omega)]
    · intro j hj
      cases j with
      | zero =>
        have z : s.position_index + 2 * ((0 : Nat) : Int) = s.position_index := by simp
        rw [z]
        constructor
        · rw [ih1 _ (by omega), hpd, Function.update_noteq (by omega), Function.update_same]
        · rw [ih1 _ (by omega), hpd, Function.update_same]
      | succ j =>
        obtain ⟨e1, e2⟩ := ih2 j (by omega)
        have i1 : s.position_index + 2 * ((j + 1 : Nat) : Int)
            = s.position_index + 2 + 2 * (j : Int) := by
          push_cast; ring
        rw [i1]
        exact ⟨e1, e2⟩

/-- The colour array below the write cursor is untouched by the spawn loop. -/
theorem foldl_spawnBody_color (inp : Input) :
    ∀ (l : List Nat) (s : State) (x : Int), x < s.color_index →
      (l.foldl (spawnBody inp) s).color_buffer_data x = s.color_buffer_data x := by
  intro l
  induction l with
  | nil => intro s x _; rfl
  | cons a l ih =>
    intro s x hx
    rw [List.foldl_cons]
    by_cases hlt : s.num_particles < MAX_PARTICLES
    · have hci : (spawnBody inp s a).color_index = s.color_index + 4 := by
        simp [spawnBody, hlt]
      rw [ih (spawnBody inp s a) x (by omega)]
      simp only [spawnBody, hlt, if_true]
      rw [Function.update_noteq (by omega), Function.update_noteq (by omega),
        Function.update_noteq (by omega), Function.update_noteq (by omega)]
    · rw [spawnBody_of_not_lt inp s a hlt]
      exact ih s x hx

theorem batch_room (s : State) : batch s = 0 ∨ s.num_particles + batch s ≤ MAX_PARTICLES := by
  unfold batch
  omega

/-- The spawn loop is its first `batch s` passes: the remaining passes find the store
full and do nothing. -/
theorem spawnLoop_eq (inp : Input) (s : State) :
    spawnLoop inp s = (List.range' 0 (batch s)).foldl (spawnBody inp) s := by
  have hnum := (foldl_spawnBody_scalars inp (batch s) 0 s (batch_room s)).1
  have hb : batch s = 16 ∨ (batch s < 16 ∧ MAX_PARTICLES ≤ s.num_particles + batch s) := by
    unfold batch
    omega
  generalize batch s = m at hnum hb
  have hsplit : List.range 16 = List.range' 0 m ++ List.range' (0 + m) (16 - m) := by
    rw [List.range_eq_range', List.range'_append_1]
    congr 1
    omega
  unfold spawnLoop
  rw [hsplit, List.foldl_append]
  rcases hb with h16 | ⟨_, hfull⟩
  · subst h16
    simp
  · exact foldl_spawnBody_of_not_lt inp _ _ (by rw [hnum]; omega)

theorem spawn_of_gate (inp : Input) (s : State) (h : spawnGate inp s = true) :
    spawn inp s = (List.range' 0 (batch s)).foldl (spawnBody inp) s := by
  rw [spawn, if_pos h, spawnLoop_eq]

theorem spawn_of_not_gate (inp : Input) (s : State) (h : ¬ spawnGate inp s = true) :
    spawn inp s = s := by
  rw [spawn, if_neg h]

theorem spawnGate_iff (inp : Input) (s : State) :
    spawnGate inp s = true ↔
      inp.left_pressed = true ∧ s.update_time > SPAWN_TIME ∧
      s.num_particles ≠ MAX_PARTICLES ∧
      inp.xpos < BOUNDARY_WIDTH ∧ inp.xpos > -BOUNDARY_WIDTH ∧
      inp.ypos < BOUNDARY_HEIGHT ∧ inp.ypos > -BOUNDARY_HEIGHT := by
  simp [spawnGate, and_assoc]

/-- The number of particles created by a spawn attempt, in closed form. -/
theorem numSpawned_eq (inp : Input) (s : State) :
    numSpawned inp s = if spawnGate inp s = true then (batch s : Int) else 0 := by
  unfold numSpawned
  by_cases h : spawnGate inp s = true
  · rw [spawn_of_gate inp s h, if_pos h,
      (foldl_spawnBody_scalars inp (batch s) 0 s (batch_room s)).1]
    omega
  · rw [spawn_of_not_gate inp s h, if_neg h]
    omega

/-! ## The integration loop -/

theorem integrateBody_other (time : ℚ) (i : Int) (s : State) (x : Int)
    (h1 : x ≠ i) (h2 : x ≠ i + 1) :
    (integrateBody time i s).position_buffer_data x = s.position_buffer_data x ∧
    (integrateBody time i s).vector_data x = s.vector_data x := by
  unfold integrateBody
  constructor
  · dsimp only
    split_ifs <;> simp [Function.update_noteq, h1, h2]
  · dsimp only
    split_ifs <;> simp [Function.update_noteq, h1, h2]

theorem integrateBody_particle (time : ℚ) (k : Int) (s : State) :
    particle (integrateBody time (2 * k) s) k = stepParticle time (particle s k) := by
  have hne : (2 * k : Int) ≠ 2 * k + 1 := by omega
  have hne' : (2 * k + 1 : Int) ≠ 2 * k := by omega
  unfold integrateBody particle stepParticle
  dsimp only
  simp only [Function.update_same, Function.update_noteq hne, Function.update_noteq hne']
  split_ifs <;>
    simp only [Function.update_same, Function.update_noteq hne, Function.update_noteq hne'] at * <;>
    first
      | rfl
      | contradiction

/-- The integration loop writes only the position and direction arrays. -/
theorem integrateLoop_frame (time : ℚ) :
    ∀ (fuel : Nat) (i : Int) (s : State),
      (integrateLoop time fuel i s).num_particles = s.num_particles ∧
      (integrateLoop time fuel i s).time = s.time ∧
      (integrateLoop time fuel i s).position_index = s.position_index ∧
      (integrateLoop time fuel i s).color_buffer_data = s.color_buffer_data ∧
      (integrateLoop time fuel i s).color_index = s.color_index ∧
      (integrateLoop time fuel i s).vector_index = s.vector_index ∧
      (integrateLoop time fuel i s).update_time = s.update_time ∧
      (integrateLoop time fuel i s).rand_calls = s.rand_calls := by
  intro fuel
  induction fuel with
  | zero => intro i s; simp [integrateLoop]
  | succ fuel ih =>
    intro i s
    unfold integrateLoop
    split_ifs
    · exact ih (i + 2) (integrateBody time i s)
    · simp

/-- Passes beyond the first `num_particles - a` are never taken: the loop entered at
slot `2 * a` leaves through its condition. -/
theorem integrateLoop_fuel (time : ℚ) :
    ∀ (fuel extra : Nat) (a : Int) (s : State), (s.num_particles - a).toNat ≤ fuel →
      integrateLoop time (fuel + extra) (2 * a) s = integrateLoop time fuel (2 * a) s := by
  intro fuel
  induction fuel with
  | zero =>
    intro extra a s h
    have hc : ¬ (2 * a < s.num_particles * 2) := by omega
    cases extra with
    | zero => rfl
    | succ e => simp [integrateLoop, hc]
  | succ fuel ih =>
    intro extra a s h
    have e : fuel + 1 + extra = (fuel + extra) + 1 := by omega
    rw [e]
    unfold integrateLoop
    split_ifs with hc
    · have e2 : 2 * a + 2 = 2 * (a + 1) := by ring
      rw [e2]
      exact ih extra (a + 1) (integrateBody time (2 * a) s) (by
        have : (integrateBody time (2 * a) s).num_particles = s.num_particles := rfl
        rw [this]; omega)
    · rfl

/-- What the integration loop entered at slot `2 * a` with enough fuel does: slots
below `2 * a` and from `2 * num_particles` on are untouched, and every particle
`a ≤ k < num_particles` is replaced by its `stepParticle`. -/
theorem integrateLoop_slots (time : ℚ) :
    ∀ (fuel : Nat) (a : Int) (s : State), (s.num_particles - a).toNat ≤ fuel →
      (∀ x : Int, (x < 2 * a ∨ 2 * s.num_particles ≤ x) →
        (integrateLoop time fuel (2 * a) s).position_buffer_data x = s.position_buffer_data x ∧
        (integrateLoop time fuel (2 * a) s).vector_data x = s.vector_data x) ∧
      (∀ k : Int, a ≤ k → k < s.num_particles →
        particle (integrateLoop time fuel (2 * a) s) k = stepParticle time (particle s k)) := by
  intro fuel
  induction fuel with
  | zero =>
    intro a s h
    constructor
    · intro x _; exact ⟨rfl, rfl⟩
    · intro k h1 h2; omega
  | succ fuel ih =>
    intro a s h
    unfold integrateLoop
    split_ifs with hc
    · have e2 : 2 * a + 2 = 2 * (a + 1) := by ring
      have hn : (integrateBody time (2 * a) s).num_particles = s.num_particles := rfl
      rw [e2]
      obtain ⟨ih1, ih2⟩ := ih (a + 1) (integrateBody time (2 * a) s) (by rw [hn]; omega)
      rw [hn] at ih1 ih2
      constructor
      · intro x hx
        obtain ⟨p, v⟩ := ih1 x (by omega)
        obtain ⟨p', v'⟩ := integrateBody_other time (2 * a) s x (by omega) (by omega)
        exact ⟨p.trans p', v.trans v'⟩
      · intro k h1 h2
        by_cases hk : k = a
        · subst hk
          rw [← integrateBody_particle]
          unfold particle
          rw [(ih1 (2 * k) (by omega)).1, (ih1 (2 * k) (by omega)).2,
            (ih1 (2 * k + 1) (by omega)).1, (ih1 (2 * k + 1) (by omega)).2]
        · rw [ih2 k (by omega) h2]
          congr 1
          unfold particle
          rw [(integrateBody_other time (2 * a) s (2 * k) (by omega) (by omega)).1,
            (integrateBody_other time (2 * a) s (2 * k) (by omega) (by omega)).2,
            (integrateBody_other time (2 * a) s (2 * k + 1) (by omega) (by omega)).1,
            (integrateBody_other time (2 * a) s (2 * k + 1) (by omega) (by omega)).2]
    · constructor
      · intro x _; exact ⟨rfl, rfl⟩
      · intro k h1 h2; omega

theorem integrate_frame (time : ℚ) (s : State) :
    (integrate time s).num_particles = s.num_particles ∧
    (integrate time s).time = s.time ∧
    (integrate time s).position_index = s.position_index ∧
    (integrate time s).color_buffer_data = s.color_buffer_data ∧
    (integrate time s).color_index = s.color_index ∧
    (integrate time s).vector_index = s.vector_index ∧
    (integrate time s).update_time = s.update_time ∧
    (integrate time s).rand_calls = s.rand_calls :=
  integrateLoop_frame time _ 0 s

/-- Slots outside the live range are not written by an integration step. -/
theorem integrate_outside (time : ℚ) (s : State) (x : Int)
    (hx : x < 0 ∨ 2 * s.num_particles ≤ x) :
    (integrate time s).position_buffer_data x = s.position_buffer_data x ∧
    (integrate time s).vector_data x = s.vector_data x := by
  have h := (integrateLoop_slots time s.num_particles.toNat 0 s (by omega)).1 x (by omega)
  exact h

/-- An integration step replaces every live particle by its `stepParticle`. -/
theorem integrate_particle (time : ℚ) (s : State) (k : Int)
    (h0 : 0 ≤ k) (h1 : k < s.num_particles) :
    particle (integrate time s) k = stepParticle time (particle s k) := by
  have h := (integrateLoop_slots time s.num_particles.toNat 0 s (by omega)).2 k h0 h1
  exact h

/-- More fuel than `num_particles` passes changes nothing: `integrate` is the loop run
to completion. -/
theorem integrate_fuel (time : ℚ) (s : State) (extra : Nat) :
    integrateLoop time (s.num_particles.toNat + extra) 0 s = integrate time s := by
  have h := integrateLoop_fuel time s.num_particles.toNat extra 0 s (by omega)
  exact h

/-! ## One particle -/

theorem stepParticle_dirSq (time : ℚ) (p : Particle) :
    dirSq (stepParticle time p) = dirSq p := by
  unfold stepParticle dirSq
  dsimp only
  split_ifs <;> ring

/-- The step the code takes on one particle is the reference integrator. -/
theorem stepParticle_eq_advanceRef (time : ℚ) (p : Particle) :
    stepParticle time p = advanceRef time p := rfl

/-- The x coordinate after a step: the advanced coordinate when it is strictly inside
the bound, the old coordinate (and a negated direction) otherwise. -/
theorem stepParticle_x (time : ℚ) (p : Particle) :
    (-BOUNDARY_WIDTH < p.x + p.dx * PARTICLE_SPEED * time ∧
      p.x + p.dx * PARTICLE_SPEED * time < BOUNDARY_WIDTH ∧
      (stepParticle time p).x = p.x + p.dx * PARTICLE_SPEED * time ∧
      (stepParticle time p).dx = p.dx) ∨
    ((BOUNDARY_WIDTH ≤ p.x + p.dx * PARTICLE_SPEED * time ∨
        p.x + p.dx * PARTICLE_SPEED * time ≤ -BOUNDARY_WIDTH) ∧
      (stepParticle time p).x = p.x ∧ (stepParticle time p).dx = -p.dx) := by
  unfold stepParticle
  dsimp only
  by_cases h : p.x + p.dx * PARTICLE_SPEED * time ≥ BOUNDARY_WIDTH ∨
      p.x + p.dx * PARTICLE_SPEED * time ≤ -BOUNDARY_WIDTH
  · right
    refine ⟨h, ?_, ?_⟩
    · simp only [h, decide_True, if_true]; ring
    · simp only [h, decide_True, if_true]
  · left
    have h' := h
    rw [not_or, not_le, not_le] at h'
    refine ⟨h'.2, h'.1, ?_, ?_⟩
    · simp only [h, decide_False]; rfl
    · simp only [h, decide_False]; rfl

/-- The y coordinate after a step: the advanced coordinate when it is strictly inside
the bound, the old coordinate (and a negated direction) otherwise. -/
theorem stepParticle_y (time : ℚ) (p : Particle) :
    (-BOUNDARY_HEIGHT < p.y + p.dy * PARTICLE_SPEED * time ∧
      p.y + p.dy * PARTICLE_SPEED * time < BOUNDARY_HEIGHT ∧
      (stepParticle time p).y = p.y + p.dy * PARTICLE_SPEED * time ∧
      (stepParticle time p).dy = p.dy) ∨
    ((BOUNDARY_HEIGHT ≤ p.y + p.dy * PARTICLE_SPEED * time ∨
        p.y + p.dy * PARTICLE_SPEED * time ≤ -BOUNDARY_HEIGHT) ∧
      (stepParticle time p).y = p.y ∧ (stepParticle time p).dy = -p.dy) := by
  unfold stepParticle
  dsimp only
  by_cases h : p.y + p.dy * PARTICLE_SPEED * time ≥ BOUNDARY_HEIGHT ∨
      p.y + p.dy * PARTICLE_SPEED * time ≤ -BOUNDARY_HEIGHT
  · right
    refine ⟨h, ?_, ?_⟩
    · simp only [h, decide_True, if_true]; ring
    · simp only [h, decide_True, if_true]
  · left
    have h' := h
    rw [not_or, not_le, not_le] at h'
    refine ⟨h'.2, h'.1, ?_, ?_⟩
    · simp only [h, decide_False]; rfl
    · simp only [h, decide_False]; rfl

/-! ## Frames and reachable states -/

theorem frame_eq (inp : Input) (s : State) :
    frame inp s =
      clock inp (integrate (accumulate (spawn inp s)).time (accumulate (spawn inp s))) := rfl

theorem spawn_time (inp : Input) (s : State) : (spawn inp s).time = s.time := by
  by_cases h : spawnGate inp s = true
  · rw [spawn_of_gate inp s h]
    exact (foldl_spawnBody_scalars inp (batch s) 0 s (batch_room s)).2.2.2.2.2.1
  · rw [spawn_of_not_gate inp s h]

/-- A frame replaces every particle that is live after the spawn attempt by its
`stepParticle` for the value `time` has at the top of the frame. -/
theorem frame_particle (inp : Input) (s : State) (k : Int)
    (h0 : 0 ≤ k) (h1 : k < (spawn inp s).num_particles) :
    particle (frame inp s) k = stepParticle s.time (particle (spawn inp s) k) := by
  rw [frame_eq]
  have ht : (accumulate (spawn inp s)).time = s.time := spawn_time inp s
  rw [ht]
  exact integrate_particle s.time (accumulate (spawn inp s)) k h0 h1

theorem frame_num (inp : Input) (s : State) :
    (frame inp s).num_particles = (spawn inp s).num_particles := by
  rw [frame_eq]
  exact (integrate_frame _ _).1

theorem spawn_aligned (inp : Input) (s : State) (h : Aligned s) : Aligned (spawn inp s) := by
  by_cases hg : spawnGate inp s = true
  · rw [spawn_of_gate inp s hg]
    obtain ⟨h1, h2, h3, h4, _, _, _⟩ :=
      foldl_spawnBody_scalars inp (batch s) 0 s (batch_room s)
    obtain ⟨a0, a1, a2, a3, a4⟩ := h
    have hb := batch_room s
    refine ⟨?_, ?_, ?_, ?_, ?_⟩
    · rw [h1]; omega
    · rw [h1]; omega
    · rw [h3, h1]; omega
    · rw [h2, h1]; omega
    · rw [h4, h1]; omega
  · rw [spawn_of_not_gate inp s hg]; exact h

theorem integrate_aligned (time : ℚ) (s : State) (h : Aligned s) :
    Aligned (integrate time s) := by
  obtain ⟨h1, _, h3, _, h5, h6, _, _⟩ := integrate_frame time s
  unfold Aligned
  rw [h1, h3, h5, h6]
  exact h

theorem frame_aligned (inp : Input) (s : State) (h : Aligned s) : Aligned (frame inp s) := by
  rw [frame_eq]
  have h1 : Aligned (accumulate (spawn inp s)) := spawn_aligned inp s h
  exact integrate_aligned _ _ h1

theorem init_aligned : Aligned init := by
  unfold Aligned init MAX_PARTICLES
  simp

theorem run_aligned (inps : List Input) :
    ∀ s : State, Aligned s → Aligned (run inps s) := by
  induction inps with
  | nil => intro s h; exact h
  | cons inp inps ih =>
    intro s h
    exact ih (frame inp s) (frame_aligned inp s h)

theorem reachable_aligned (s : State) (h : Reachable s) : Aligned s := by
  induction h with
  | start => exact init_aligned
  | step inp _ ih => exact frame_aligned inp _ ih

theorem reachable_run (inps : List Input) :
    ∀ s : State, Reachable s → Reachable (run inps s) := by
  induction inps with
  | nil => intro s h; exact h
  | cons inp inps ih =>
    intro s h
    exact ih (frame inp s) (Reachable.step inp h)

/-- The store after a spawn attempt that passes the gate, for a store whose write
cursors agree with the live count. -/
theorem spawn_aligned_batch (inp : Input) (s : State) (ha : Aligned s)
    (hg : spawnGate inp s = true) :
    (spawn inp s).num_particles = s.num_particles + batch s ∧
    (∀ j : Nat, j < batch s →
      particle (spawn inp s) (s.num_particles + j)
        = ⟨toGLfloat inp.xpos, toGLfloat inp.ypos, (vectors j).1, (vectors j).2⟩) ∧
    (∀ x : Int, x < 2 * s.num_particles →
      (spawn inp s).position_buffer_data x = s.position_buffer_data x ∧
      (spawn inp s).vector_data x = s.vector_data x) ∧
    (∀ x : Int, x < 4 * s.num_particles →
      (spawn inp s).color_buffer_data x = s.color_buffer_data x) := by
  obtain ⟨_, _, a2, a3, a4⟩ := ha
  rw [spawn_of_gate inp s hg]
  obtain ⟨v1, v2⟩ := foldl_spawnBody_vector inp (batch s) 0 s (batch_room s)
  obtain ⟨p1, p2⟩ := foldl_spawnBody_position inp (batch s) 0 s (batch_room s)
  refine ⟨(foldl_spawnBody_scalars inp (batch s) 0 s (batch_room s)).1, ?_, ?_, ?_⟩
  · intro j hj
    obtain ⟨e1, e2⟩ := v2 j hj
    obtain ⟨e3, e4⟩ := p2 j hj
    rw [a3] at e1 e2
    rw [a2] at e3 e4
    have i1 : 2 * (s.num_particles + (j : Int)) = 2 * s.num_particles + 2 * j := by ring
    rw [Nat.zero_add] at e1 e2
    unfold particle
    rw [i1, e1, e2, e3, e4]
  · intro x hx
    exact ⟨p1 x (by omega), v1 x (by omega)⟩
  · intro x hx
    exact foldl_spawnBody_color inp _ s x (by omega)

/-! ## Claims about the spawner -/

/-- C1. Capacity invariant: from the initial state, after every sequence of frames
with arbitrary inputs `0 ≤ num_particles ≤ MAX_PARTICLES`; and in any state with
`num_particles = MAX_PARTICLES` a spawn attempt with any input leaves `num_particles`
and the three write cursors unchanged. -/
theorem capacity_invariant :
    (∀ inps : List Input,
      0 ≤ (run inps init).num_particles ∧ (run inps init).num_particles ≤ MAX_PARTICLES) ∧
    (∀ (inp : Input) (s : State), s.num_particles = MAX_PARTICLES →
      (spawn inp s).num_particles = s.num_particles ∧
      (spawn inp s).position_index = s.position_index ∧
      (spawn inp s).color_index = s.color_index ∧
      (spawn inp s).vector_index = s.vector_index) := by
  constructor
  · intro inps
    have h := run_aligned inps init init_aligned
    exact ⟨h.1, h.2.1⟩
  · intro inp s h
    have hg : ¬ spawnGate inp s = true := by
      rw [spawnGate_iff]
      intro hc
      exact hc.2.2.1 h
    rw [spawn_of_not_gate inp s hg]
    exact ⟨rfl, rfl, rfl, rfl⟩

theorem capacity_invariant_witness :
    (0 ≤ (run [idleInput 1, idleInput 1, armedInput 0 0 1] init).num_particles ∧
      (run [idleInput 1, idleInput 1, armedInput 0 0 1] init).num_particles ≤ MAX_PARTICLES) ∧
    fullStore.num_particles = MAX_PARTICLES ∧
    (spawn (armedInput 0 0 1) fullStore).num_particles = fullStore.num_particles ∧
    (spawn (armedInput 0 0 1) fullStore).position_index = fullStore.position_index ∧
    (spawn (armedInput 0 0 1) fullStore).color_index = fullStore.color_index ∧
    (spawn (armedInput 0 0 1) fullStore).vector_index = fullStore.vector_index :=
  ⟨capacity_invariant.1 [idleInput 1, idleInput 1, armedInput 0 0 1], rfl,
    capacity_invariant.2 (armedInput 0 0 1) fullStore rfl⟩

/-- In a reachable state the live count is a multiple of 16: every batch is full,
because 16 divides `MAX_PARTICLES`. -/
theorem reachable_mod16 (s : State) (h : Reachable s) : s.num_particles % 16 = 0 := by
  induction h with
  | start => rfl
  | @step s inp hs ih =>
    rw [frame_num]
    have ha := reachable_aligned s hs
    by_cases hg : spawnGate inp s = true
    · rw [spawn_of_gate inp s hg,
        (foldl_spawnBody_scalars inp (batch s) 0 s (batch_room s)).1]
      obtain ⟨a0, a1, _⟩ := ha
      unfold batch
      unfold MAX_PARTICLES at a1 ⊢
      omega
    · rw [spawn_of_not_gate inp s hg]
      exact ih

/-- C2 as stated fails: after two idle frames, an armed frame with the cursor at
world position `(0, 999999990)` passes the gate, and the first particle it creates is
stored at `(0, 1000000000)`, the single-precision value nearest to the cursor, not at
the cursor's world position. -/
theorem cursor_position_is_narrowed :
    Reachable warmedUp ∧ 1 ≤ MAX_PARTICLES - warmedUp.num_particles ∧
    spawnGate (armedInput 0 999999990 1) warmedUp = true ∧
    (0 : Int) < min 16 (MAX_PARTICLES - warmedUp.num_particles) ∧
    particle (spawn (armedInput 0 999999990 1) warmedUp) (warmedUp.num_particles + 0)
      = ⟨0, 1000000000, 0, 1⟩ ∧
    (particle (spawn (armedInput 0 999999990 1) warmedUp) (warmedUp.num_particles + 0)).y
      ≠ (armedInput 0 999999990 1).ypos :=
  ⟨Reachable.step _ (Reachable.step _ Reachable.start), by decide!, by decide!, by decide!,
    by decide!, by decide!⟩

/-- C2, amended. Every reachable state has its write cursors in step with the live
count (and a live count that is a multiple of 16).  In every state whose write cursors
are in step with the live count and that has at least one free slot, a spawn attempt
that passes the gate increases `num_particles` by exactly
`m = min(16, MAX_PARTICLES - num_particles)`; for `j < m` the particle at index
`num_particles + j` has row `j` of the direction table and, as position, the cursor's
world position narrowed to `GLfloat`; and no position, direction or colour slot of a
previously live particle is changed. -/
theorem spawn_batch :
    (∀ s : State, Reachable s → Aligned s ∧ s.num_particles % 16 = 0) ∧
    (∀ (inp : Input) (s : State), Aligned s → 1 ≤ MAX_PARTICLES - s.num_particles →
      spawnGate inp s = true →
      (spawn inp s).num_particles
        = s.num_particles + min 16 (MAX_PARTICLES - s.num_particles) ∧
      (∀ j : Nat, (j : Int) < min 16 (MAX_PARTICLES - s.num_particles) →
        particle (spawn inp s) (s.num_particles + j)
          = ⟨toGLfloat inp.xpos, toGLfloat inp.ypos, (vectors j).1, (vectors j).2⟩) ∧
      (∀ x : Int, x < 2 * s.num_particles →
        (spawn inp s).position_buffer_data x = s.position_buffer_data x ∧
        (spawn inp s).vector_data x = s.vector_data x) ∧
      (∀ x : Int, x < 4 * s.num_particles →
        (spawn inp s).color_buffer_data x = s.color_buffer_data x)) := by
  constructor
  · intro s hr
    exact ⟨reachable_aligned s hr, reachable_mod16 s hr⟩
  · intro inp s ha hfree hg
    obtain ⟨h1, h2, h3, h4⟩ := spawn_aligned_batch inp s ha hg
    have hb : (batch s : Int) = min 16 (MAX_PARTICLES - s.num_particles) := by
      unfold batch
      omega
    refine ⟨by rw [h1, hb], ?_, h3, h4⟩
    intro j hj
    exact h2 j (by omega)

theorem spawn_batch_witness :
    (Reachable warmedUp ∧ Aligned warmedUp ∧ warmedUp.num_particles % 16 = 0) ∧
    (Aligned warmedUp ∧ 1 ≤ MAX_PARTICLES - warmedUp.num_particles ∧
      spawnGate (armedInput 0 999999990 1) warmedUp = true ∧
      (spawn (armedInput 0 999999990 1) warmedUp).num_particles
        = warmedUp.num_particles + min 16 (MAX_PARTICLES - warmedUp.num_particles) ∧
      ((15 : Nat) : Int) < min 16 (MAX_PARTICLES - warmedUp.num_particles) ∧
      particle (spawn (armedInput 0 999999990 1) warmedUp)
          (warmedUp.num_particles + (15 : Nat))
        = ⟨toGLfloat (armedInput 0 999999990 1).xpos,
            toGLfloat (armedInput 0 999999990 1).ypos, (vectors 15).1, (vectors 15).2⟩) ∧
    (Aligned nearFull ∧ 1 ≤ MAX_PARTICLES - nearFull.num_particles ∧
      spawnGate (armedInput 3 4 1) nearFull = true ∧
      (spawn (armedInput 3 4 1) nearFull).num_particles
        = nearFull.num_particles + min 16 (MAX_PARTICLES - nearFull.num_particles) ∧
      ((2 : Nat) : Int) < min 16 (MAX_PARTICLES - nearFull.num_particles) ∧
      particle (spawn (armedInput 3 4 1) nearFull) (nearFull.num_particles + (2 : Nat))
        = ⟨toGLfloat (armedInput 3 4 1).xpos, toGLfloat (armedInput 3 4 1).ypos,
            (vectors 2).1, (vectors 2).2⟩) :=
  ⟨⟨Reachable.step _ (Reachable.step _ Reachable.start),
      spawn_batch.1 warmedUp (Reachable.step _ (Reachable.step _ Reachable.start))⟩,
    ⟨(spawn_batch.1 warmedUp (Reachable.step _ (Reachable.step _ Reachable.start))).1,
      by decide!, by decide!,
      (spawn_batch.2 (armedInput 0 999999990 1) warmedUp
        (spawn_batch.1 warmedUp (Reachable.step _ (Reachable.step _ Reachable.start))).1
        (by decide!) (by decide!)).1,
      by decide!,
      (spawn_batch.2 (armedInput 0 999999990 1) warmedUp
        (spawn_batch.1 warmedUp (Reachable.step _ (Reachable.step _ Reachable.start))).1
        (by decide!) (by decide!)).2.1 15 (by decide!)⟩,
    ⟨by unfold Aligned; decide!, by decide!, by decide!,
      (spawn_batch.2 (armedInput 3 4 1) nearFull (by unfold Aligned; decide!)
        (by decide!) (by decide!)).1,
      by decide!,
      (spawn_batch.2 (armedInput 3 4 1) nearFull (by unfold Aligned; decide!)
        (by decide!) (by decide!)).2.1 2 (by decide!)⟩⟩

/-- A partial batch: with three free slots a gated spawn creates exactly three
particles, from rows 0, 1, 2 of the direction table, and fills the store. -/
theorem spawn_partial_example :
    Aligned nearFull ∧ spawnGate (armedInput 3 4 1) nearFull = true ∧
    batch nearFull = 3 ∧
    (spawn (armedInput 3 4 1) nearFull).num_particles = MAX_PARTICLES ∧
    particle (spawn (armedInput 3 4 1) nearFull) (MAX_PARTICLES - 3) = ⟨3, 4, 0, 1⟩ ∧
    particle (spawn (armedInput 3 4 1) nearFull) (MAX_PARTICLES - 2) = ⟨3, 4, 0, -1⟩ ∧
    particle (spawn (armedInput 3 4 1) nearFull) (MAX_PARTICLES - 1) = ⟨3, 4, 1, 0⟩ ∧
    particle (spawn (armedInput 3 4 1) nearFull) MAX_PARTICLES = ⟨0, 0, 0, 0⟩ := by
  refine ⟨?_, by decide!, by decide!, by decide!, by decide!, by decide!, by decide!,
    by decide!⟩
  unfold Aligned
  decide!

/-- C3. Spawn gating: a spawn attempt creates at least one particle if and only if the
left button is pressed, the accumulator is strictly greater than `SPAWN_TIME`, the
cursor's world position is strictly inside the bounds, and
`num_particles < MAX_PARTICLES`.  With the button up, or with the cursor on or outside
the bounds, no particle is created and the state is unchanged, whatever the
accumulator holds. -/
theorem spawn_gating (inp : Input) (s : State) :
    (1 ≤ numSpawned inp s ↔
      inp.left_pressed = true ∧ s.update_time > SPAWN_TIME ∧
      (-BOUNDARY_WIDTH < inp.xpos ∧ inp.xpos < BOUNDARY_WIDTH ∧
        -BOUNDARY_HEIGHT < inp.ypos ∧ inp.ypos < BOUNDARY_HEIGHT) ∧
      s.num_particles < MAX_PARTICLES) ∧
    ((inp.left_pressed = false ∨
        ¬ (-BOUNDARY_WIDTH < inp.xpos ∧ inp.xpos < BOUNDARY_WIDTH ∧
          -BOUNDARY_HEIGHT < inp.ypos ∧ inp.ypos < BOUNDARY_HEIGHT)) →
      numSpawned inp s = 0 ∧ spawn inp s = s) := by
  constructor
  · rw [numSpawned_eq]
    by_cases hg : spawnGate inp s = true
    · rw [if_pos hg]
      obtain ⟨g1, g2, g3, g4, g5, g6, g7⟩ := (spawnGate_iff inp s).1 hg
      constructor
      · intro h
        refine ⟨g1, g2, ⟨g5, g4, g7, g6⟩, ?_⟩
        unfold batch at h
        omega
      · intro h
        unfold batch
        omega
    · rw [if_neg hg]
      constructor
      · intro h; omega
      · rintro ⟨g1, g2, ⟨g5, g4, g7, g6⟩, g3⟩
        exact absurd ((spawnGate_iff inp s).2 ⟨g1, g2, by omega, g4, g5, g6, g7⟩) hg
  · intro h
    have hg : ¬ spawnGate inp s = true := by
      rw [spawnGate_iff]
      rintro ⟨g1, g2, g3, g4, g5, g6, g7⟩
      rcases h with h | h
      · rw [g1] at h; exact Bool.noConfusion h
      · exact h ⟨g5, g4, g7, g6⟩
    refine ⟨?_, spawn_of_not_gate inp s hg⟩
    rw [numSpawned_eq, if_neg hg]

theorem spawn_gating_witness :
    ((idleInput 5).left_pressed = false ∨
        ¬ (-BOUNDARY_WIDTH < (idleInput 5).xpos ∧ (idleInput 5).xpos < BOUNDARY_WIDTH ∧
          -BOUNDARY_HEIGHT < (idleInput 5).ypos ∧ (idleInput 5).ypos < BOUNDARY_HEIGHT)) ∧
    (numSpawned (idleInput 5) warmedUp = 0 ∧ spawn (idleInput 5) warmedUp = warmedUp) ∧
    ((armedInput 3 4 1).left_pressed = true ∧ warmedUp.update_time > SPAWN_TIME ∧
      (-BOUNDARY_WIDTH < (armedInput 3 4 1).xpos ∧ (armedInput 3 4 1).xpos < BOUNDARY_WIDTH ∧
        -BOUNDARY_HEIGHT < (armedInput 3 4 1).ypos ∧
        (armedInput 3 4 1).ypos < BOUNDARY_HEIGHT) ∧
      warmedUp.num_particles < MAX_PARTICLES) ∧
    1 ≤ numSpawned (armedInput 3 4 1) warmedUp :=
  ⟨Or.inl rfl, (spawn_gating (idleInput 5) warmedUp).2 (Or.inl rfl),
    by decide!, (spawn_gating (armedInput 3 4 1) warmedUp).1.2 (by decide!)⟩

/-- C9. Spawn-interval accumulator: a spawn attempt that creates at least one particle
leaves `update_time = 0`, one that creates none leaves `update_time` unchanged (and a
spawn attempt never creates a negative number); the frame then adds the value `time`
holds during that frame (the elapsed time measured by the preceding `clock()`), so a
frame without a spawn increases the accumulator by exactly that elapsed time. -/
theorem update_time_accumulator (inp : Input) (s : State) :
    0 ≤ numSpawned inp s ∧
    (1 ≤ numSpawned inp s → (spawn inp s).update_time = 0) ∧
    (numSpawned inp s = 0 → (spawn inp s).update_time = s.update_time) ∧
    (frame inp s).update_time = (spawn inp s).update_time + s.time ∧
    (numSpawned inp s = 0 → (frame inp s).update_time = s.update_time + s.time) := by
  have hframe : (frame inp s).update_time = (spawn inp s).update_time + s.time := by
    rw [frame_eq]
    have h := (integrate_frame (accumulate (spawn inp s)).time (accumulate (spawn inp s))).2.2.2.2.2.2.1
    have h' : (clock inp (integrate (accumulate (spawn inp s)).time
        (accumulate (spawn inp s)))).update_time
        = (integrate (accumulate (spawn inp s)).time (accumulate (spawn inp s))).update_time := rfl
    rw [h', h]
    show (spawn inp s).update_time + (spawn inp s).time = _
    rw [spawn_time]
  have hzero : numSpawned inp s = 0 → (spawn inp s).update_time = s.update_time := by
    intro h0
    by_cases hg : spawnGate inp s = true
    · rw [numSpawned_eq, if_pos hg] at h0
      have hb : batch s = 0 := by omega
      rw [spawn_of_gate inp s hg, hb]
      rfl
    · rw [spawn_of_not_gate inp s hg]
  refine ⟨?_, ?_, hzero, hframe, ?_⟩
  · rw [numSpawned_eq]
    split_ifs <;> omega
  · intro h1
    by_cases hg : spawnGate inp s = true
    · rw [numSpawned_eq, if_pos hg] at h1
      rw [spawn_of_gate inp s hg,
        (foldl_spawnBody_scalars inp (batch s) 0 s (batch_room s)).2.2.2.2.2.2]
      rw [if_neg (by omega)]
    · rw [numSpawned_eq, if_neg hg] at h1
      omega
  · intro h0
    rw [hframe, hzero h0]

theorem update_time_accumulator_witness :
    1 ≤ numSpawned (armedInput 0 0 1) warmedUp ∧
    numSpawned (idleInput 2) warmedUp = 0 ∧
    (spawn (armedInput 0 0 1) warmedUp).update_time = 0 ∧
    (spawn (idleInput 2) warmedUp).update_time = warmedUp.update_time ∧
    (frame (idleInput 2) warmedUp).update_time = warmedUp.update_time + warmedUp.time :=
  ⟨by decide!, by decide!,
    (update_time_accumulator (armedInput 0 0 1) warmedUp).2.1 (by decide!),
    (update_time_accumulator (idleInput 2) warmedUp).2.2.1 (by decide!),
    (update_time_accumulator (idleInput 2) warmedUp).2.2.2.2 (by decide!)⟩

/-! ## Claims about the integrator -/

/-- C5. Reflection correctness: a live particle with `position.x = BOUNDARY_WIDTH - eps`
and `direction.x = 1` has, after one integration step with elapsed time `dt` where
`0 < eps < PARTICLE_SPEED * dt`, `direction.x = -1 < 0` and `position.x`
(`= BOUNDARY_WIDTH - eps`) strictly below `BOUNDARY_WIDTH`. -/
theorem reflection_correct (s : State) (k : Int) (eps dt : ℚ)
    (h0 : 0 ≤ k) (h1 : k < s.num_particles) (heps : 0 < eps) (_hdt : 0 ≤ dt)
    (hlt : eps < PARTICLE_SPEED * dt)
    (hx : (particle s k).x = BOUNDARY_WIDTH - eps) (hdx : (particle s k).dx = 1) :
    (particle (integrate dt s) k).dx = -1 ∧ (particle (integrate dt s) k).dx < 0 ∧
    (particle (integrate dt s) k).x = BOUNDARY_WIDTH - eps ∧
    (particle (integrate dt s) k).x < BOUNDARY_WIDTH := by
  rw [integrate_particle dt s k h0 h1]
  rcases stepParticle_x dt (particle s k) with ⟨_, hin, _, _⟩ | ⟨_, ex, ed⟩
  · rw [hx, hdx] at hin
    linarith
  · rw [ex, ed, hx, hdx]
    refine ⟨rfl, by norm_num, rfl, by linarith⟩

theorem reflection_correct_witness :
    (0 : Int) ≤ 0 ∧ (0 : Int) < (single ⟨BOUNDARY_WIDTH - 1, 0, 1, 0⟩).num_particles ∧
    (0 : ℚ) < 1 ∧ (0 : ℚ) ≤ 1 ∧ (1 : ℚ) < PARTICLE_SPEED * 1 ∧
    (particle (integrate 1 (single ⟨BOUNDARY_WIDTH - 1, 0, 1, 0⟩)) 0).dx = -1 ∧
    (particle (integrate 1 (single ⟨BOUNDARY_WIDTH - 1, 0, 1, 0⟩)) 0).dx < 0 ∧
    (particle (integrate 1 (single ⟨BOUNDARY_WIDTH - 1, 0, 1, 0⟩)) 0).x
      = BOUNDARY_WIDTH - 1 ∧
    (particle (integrate 1 (single ⟨BOUNDARY_WIDTH - 1, 0, 1, 0⟩)) 0).x < BOUNDARY_WIDTH :=
  ⟨by decide, by decide!, by decide!, by decide!, by decide!,
    reflection_correct (single ⟨BOUNDARY_WIDTH - 1, 0, 1, 0⟩) 0 1 1
      (by decide) (by decide!) (by decide!) (by decide!) (by decide!) (by decide!) (by decide!)⟩

/-- C6 as stated fails: in the store holding one particle at `x = BOUNDARY_WIDTH` with
direction `(1, 0)`, an integration step with elapsed time `0` changes the direction of
that live particle from `(1, 0)` to `(-1, 0)`. -/
theorem boundary_flip_at_zero_time :
    (0 : Int) < (single ⟨BOUNDARY_WIDTH, 0, 1, 0⟩).num_particles ∧
    particle (single ⟨BOUNDARY_WIDTH, 0, 1, 0⟩) 0 = ⟨BOUNDARY_WIDTH, 0, 1, 0⟩ ∧
    particle (integrate 0 (single ⟨BOUNDARY_WIDTH, 0, 1, 0⟩)) 0 = ⟨BOUNDARY_WIDTH, 0, -1, 0⟩ ∧
    (particle (integrate 0 (single ⟨BOUNDARY_WIDTH, 0, 1, 0⟩)) 0).dx
      ≠ (particle (single ⟨BOUNDARY_WIDTH, 0, 1, 0⟩) 0).dx := by
  decide!

/-- C6, amended. An integration step with elapsed time `0` leaves the position of
every live particle unchanged; it leaves the direction component of an axis unchanged
when the coordinate on that axis is strictly inside the bound, and negates it when the
coordinate is on or beyond the bound. -/
theorem zero_step (s : State) (k : Int) (h0 : 0 ≤ k) (h1 : k < s.num_particles) :
    (particle (integrate 0 s) k).x = (particle s k).x ∧
    (particle (integrate 0 s) k).y = (particle s k).y ∧
    ((-BOUNDARY_WIDTH < (particle s k).x ∧ (particle s k).x < BOUNDARY_WIDTH) →
      (particle (integrate 0 s) k).dx = (particle s k).dx) ∧
    ((-BOUNDARY_HEIGHT < (particle s k).y ∧ (particle s k).y < BOUNDARY_HEIGHT) →
      (particle (integrate 0 s) k).dy = (particle s k).dy) ∧
    (¬ (-BOUNDARY_WIDTH < (particle s k).x ∧ (particle s k).x < BOUNDARY_WIDTH) →
      (particle (integrate 0 s) k).dx = -(particle s k).dx) ∧
    (¬ (-BOUNDARY_HEIGHT < (particle s k).y ∧ (particle s k).y < BOUNDARY_HEIGHT) →
      (particle (integrate 0 s) k).dy = -(particle s k).dy) := by
  rw [integrate_particle 0 s k h0 h1]
  have hx := stepParticle_x 0 (particle s k)
  have hy := stepParticle_y 0 (particle s k)
  simp only [mul_zero, add_zero, sub_zero] at hx hy
  refine ⟨?_, ?_, ?_, ?_, ?_, ?_⟩
  · rcases hx with ⟨_, _, e, _⟩ | ⟨_, e, _⟩ <;> exact e
  · rcases hy with ⟨_, _, e, _⟩ | ⟨_, e, _⟩ <;> exact e
  · rintro ⟨a, b⟩
    rcases hx with ⟨_, _, _, e⟩ | ⟨c | c, _, _⟩
    · exact e
    · linarith
    · linarith
  · rintro ⟨a, b⟩
    rcases hy with ⟨_, _, _, e⟩ | ⟨c | c, _, _⟩
    · exact e
    · linarith
    · linarith
  · intro hn
    rcases hx with ⟨a, b, _, _⟩ | ⟨_, _, e⟩
    · exact absurd ⟨a, b⟩ hn
    · exact e
  · intro hn
    rcases hy with ⟨a, b, _, _⟩ | ⟨_, _, e⟩
    · exact absurd ⟨a, b⟩ hn
    · exact e

theorem zero_step_witness :
    (0 : Int) ≤ 0 ∧ (0 : Int) < (single ⟨3, BOUNDARY_HEIGHT, 1, 1⟩).num_particles ∧
    (-BOUNDARY_WIDTH < (particle (single ⟨3, BOUNDARY_HEIGHT, 1, 1⟩) 0).x ∧
      (particle (single ⟨3, BOUNDARY_HEIGHT, 1, 1⟩) 0).x < BOUNDARY_WIDTH) ∧
    ¬ (-BOUNDARY_HEIGHT < (particle (single ⟨3, BOUNDARY_HEIGHT, 1, 1⟩) 0).y ∧
      (particle (single ⟨3, BOUNDARY_HEIGHT, 1, 1⟩) 0).y < BOUNDARY_HEIGHT) ∧
    (particle (integrate 0 (single ⟨3, BOUNDARY_HEIGHT, 1, 1⟩)) 0).dx
      = (particle (single ⟨3, BOUNDARY_HEIGHT, 1, 1⟩) 0).dx ∧
    (particle (integrate 0 (single ⟨3, BOUNDARY_HEIGHT, 1, 1⟩)) 0).dy
      = -(particle (single ⟨3, BOUNDARY_HEIGHT, 1, 1⟩) 0).dy :=
  ⟨by decide, by decide!, by decide!, by decide!,
    (zero_step (single ⟨3, BOUNDARY_HEIGHT, 1, 1⟩) 0 (by decide) (by decide!)).2.2.1
      (by decide!),
    (zero_step (single ⟨3, BOUNDARY_HEIGHT, 1, 1⟩) 0 (by decide) (by decide!)).2.2.2.2.2
      (by decide!)⟩

theorem integrateMany_spec (dts : List ℚ) :
    ∀ s : State,
      (integrateMany dts s).num_particles = s.num_particles ∧
      (integrateMany dts s).color_buffer_data = s.color_buffer_data ∧
      (∀ x : Int, 2 * s.num_particles ≤ x →
        (integrateMany dts s).position_buffer_data x = s.position_buffer_data x ∧
        (integrateMany dts s).vector_data x = s.vector_data x) ∧
      (∀ k : Int, 0 ≤ k → k < s.num_particles →
        particle (integrateMany dts s) k = stepMany dts (particle s k)) := by
  induction dts with
  | nil => intro s; exact ⟨rfl, rfl, fun _ _ => ⟨rfl, rfl⟩, fun _ _ _ => rfl⟩
  | cons dt dts ih =>
    intro s
    obtain ⟨i1, i2, i3, i4⟩ := ih (integrate dt s)
    obtain ⟨f1, _, _, f4, _⟩ := integrate_frame dt s
    rw [f1] at i1 i3 i4
    refine ⟨i1, i2.trans f4, ?_, ?_⟩
    · intro x hx
      obtain ⟨a, b⟩ := i3 x hx
      obtain ⟨c, d⟩ := integrate_outside dt s x (Or.inr hx)
      exact ⟨a.trans c, b.trans d⟩
    · intro k h0 h1
      have h := i4 k h0 h1
      rw [integrate_particle dt s k h0 h1] at h
      exact h

/-- C7. Index alignment under integration: one integration step leaves `num_particles`
and every colour entry unchanged, writes no position or direction slot of a particle
index `≥ num_particles`, and maps every live particle `k` to
`stepParticle dt (particle s k)`, a function of `dt` and of the old position and
direction of particle `k` alone; the same holds for any number of steps
(`integrateMany`, `stepMany`). -/
theorem index_alignment (s : State) (dt : ℚ) (dts : List ℚ) :
    ((integrate dt s).num_particles = s.num_particles ∧
      (integrate dt s).color_buffer_data = s.color_buffer_data ∧
      (∀ x : Int, 2 * s.num_particles ≤ x →
        (integrate dt s).position_buffer_data x = s.position_buffer_data x ∧
        (integrate dt s).vector_data x = s.vector_data x) ∧
      (∀ k : Int, 0 ≤ k → k < s.num_particles →
        particle (integrate dt s) k = stepParticle dt (particle s k))) ∧
    ((integrateMany dts s).num_particles = s.num_particles ∧
      (integrateMany dts s).color_buffer_data = s.color_buffer_data ∧
      (∀ x : Int, 2 * s.num_particles ≤ x →
        (integrateMany dts s).position_buffer_data x = s.position_buffer_data x ∧
        (integrateMany dts s).vector_data x = s.vector_data x) ∧
      (∀ k : Int, 0 ≤ k → k < s.num_particles →
        particle (integrateMany dts s) k = stepMany dts (particle s k))) :=
  ⟨integrateMany_spec [dt] s, integrateMany_spec dts s⟩

theorem index_alignment_witness :
    (0 : Int) ≤ 0 ∧ (0 : Int) < (single ⟨0, 0, 1, 0⟩).num_particles ∧
    2 * (single ⟨0, 0, 1, 0⟩).num_particles ≤ 2 ∧
    particle (integrate 1 (single ⟨0, 0, 1, 0⟩)) 0
      = stepParticle 1 (particle (single ⟨0, 0, 1, 0⟩) 0) ∧
    particle (integrateMany [1, 2] (single ⟨0, 0, 1, 0⟩)) 0
      = stepMany [1, 2] (particle (single ⟨0, 0, 1, 0⟩) 0) ∧
    (integrateMany [1, 2] (single ⟨0, 0, 1, 0⟩)).position_buffer_data 2
      = (single ⟨0, 0, 1, 0⟩).position_buffer_data 2 :=
  ⟨by decide, by decide!, by decide!,
    (index_alignment (single ⟨0, 0, 1, 0⟩) 1 [1, 2]).1.2.2.2 0 (by decide) (by decide!),
    (index_alignment (single ⟨0, 0, 1, 0⟩) 1 [1, 2]).2.2.2.2 0 (by decide) (by decide!),
    ((index_alignment (single ⟨0, 0, 1, 0⟩) 1 [1, 2]).2.2.2.1 2 (by decide!)).1⟩

/-! ## Direction lengths -/

/-- The squared lengths of the rows of the direction table. -/
theorem vectors_dirSq (j : Nat) (hj : j < 16) (x y : ℚ) :
    (j < 4 → dirSq ⟨x, y, (vectors j).1, (vectors j).2⟩ = 1) ∧
    (4 ≤ j → j < 8 → dirSq ⟨x, y, (vectors j).1, (vectors j).2⟩ = 1 / 2) ∧
    (8 ≤ j → dirSq ⟨x, y, (vectors j).1, (vectors j).2⟩ = 5 / 8) := by
  interval_cases j <;> simp [vectors, dirSq] <;> norm_num

/-- Every row of the direction table has `|dx| + |dy| = 1`. -/
theorem vectors_abs_sum (j : Nat) (hj : j < 16) :
    |(vectors j).1| + |(vectors j).2| = 1 := by
  interval_cases j <;> decide!

theorem spawn_dirLengths (inp : Input) (s : State) (ha : Aligned s) (h : DirLengths s) :
    DirLengths (spawn inp s) := by
  by_cases hg : spawnGate inp s = true
  · obtain ⟨h1, h2, h3, _⟩ := spawn_aligned_batch inp s ha hg
    intro k k0 k1
    rw [h1] at k1
    by_cases hk : k < s.num_particles
    · have e : particle (spawn inp s) k = particle s k := by
        unfold particle
        rw [(h3 (2 * k) (by omega)).1, (h3 (2 * k) (by omega)).2,
          (h3 (2 * k + 1) (by omega)).1, (h3 (2 * k + 1) (by omega)).2]
      rw [e]
      exact h k k0 hk
    · have hj : (k - s.num_particles).toNat < batch s := by omega
      have e := h2 (k - s.num_particles).toNat hj
      have ek : s.num_particles + ((k - s.num_particles).toNat : Int) = k := by omega
      rw [ek] at e
      rw [e]
      have h16 : (k - s.num_particles).toNat < 16 := by
        unfold batch at hj
        omega
      obtain ⟨t1, t2, t3⟩ := vectors_dirSq _ h16 (toGLfloat inp.xpos) (toGLfloat inp.ypos)
      by_cases c1 : (k - s.num_particles).toNat < 4
      · exact Or.inl (t1 c1)
      · by_cases c2 : (k - s.num_particles).toNat < 8
        · exact Or.inr (Or.inl (t2 (by omega) c2))
        · exact Or.inr (Or.inr (t3 (by omega)))
  · rw [spawn_of_not_gate inp s hg]; exact h

theorem reachable_dirLengths (s : State) (hr : Reachable s) : DirLengths s := by
  induction hr with
  | start =>
    intro k k0 k1
    have : init.num_particles = 0 := rfl
    omega
  | @step s inp hs ih =>
    intro k k0 k1
    rw [frame_num] at k1
    rw [frame_particle inp s k k0 k1, stepParticle_dirSq]
    exact spawn_dirLengths inp s (reachable_aligned s hs) ih k k0 k1

/-- C8 as stated fails: after two idle frames and one armed frame with the cursor at
the origin, the live particle at index 4 was created from row 4 of the direction table,
`(0.5, 0.5)`, and has `dx² + dy² = 1/2`, not `1`. -/
theorem diagonal_row_not_unit :
    Reachable (run [idleInput 1, idleInput 1, armedInput 0 0 1] init) ∧
    (4 : Int) < (run [idleInput 1, idleInput 1, armedInput 0 0 1] init).num_particles ∧
    vectors 4 = (1 / 2, 1 / 2) ∧
    dirSq (particle (run [idleInput 1, idleInput 1, armedInput 0 0 1] init) 4) = 1 / 2 ∧
    dirSq (particle (run [idleInput 1, idleInput 1, armedInput 0 0 1] init) 4) ≠ 1 :=
  ⟨reachable_run _ init Reachable.start, by decide!, by decide!, by decide!, by decide!⟩

/-- C8, amended. Direction length is fixed at creation and preserved by integration:
rows 0-3 of the direction table have `dx² + dy² = 1`, rows 4-7 have `1/2`, rows 8-15
have `5/8`; an integration step leaves `dx² + dy²` of every live particle unchanged;
hence in every reachable state every live particle has `dx² + dy²` equal to `1`,
`1/2` or `5/8`. -/
theorem direction_length :
    (∀ j : Nat, j < 16 →
      (j < 4 → (vectors j).1 ^ 2 + (vectors j).2 ^ 2 = 1) ∧
      (4 ≤ j → j < 8 → (vectors j).1 ^ 2 + (vectors j).2 ^ 2 = 1 / 2) ∧
      (8 ≤ j → (vectors j).1 ^ 2 + (vectors j).2 ^ 2 = 5 / 8)) ∧
    (∀ (s : State) (dt : ℚ) (k : Int), 0 ≤ k → k < s.num_particles →
      dirSq (particle (integrate dt s) k) = dirSq (particle s k)) ∧
    (∀ s : State, Reachable s → ∀ k : Int, 0 ≤ k → k < s.num_particles →
      dirSq (particle s k) = 1 ∨ dirSq (particle s k) = 1 / 2 ∨
        dirSq (particle s k) = 5 / 8) := by
  refine ⟨?_, ?_, ?_⟩
  · intro j hj
    exact vectors_dirSq j hj 0 0
  · intro s dt k h0 h1
    rw [integrate_particle dt s k h0 h1, stepParticle_dirSq]
  · intro s hr
    exact reachable_dirLengths s hr

theorem direction_length_witness :
    (5 < 16 ∧ 4 ≤ 5 ∧ 5 < 8 ∧ (vectors 5).1 ^ 2 + (vectors 5).2 ^ 2 = 1 / 2) ∧
    ((0 : Int) ≤ 9 ∧
      (9 : Int) < (run [idleInput 1, idleInput 1, armedInput 0 0 1] init).num_particles ∧
      dirSq (particle (integrate 3 (run [idleInput 1, idleInput 1, armedInput 0 0 1] init)) 9)
        = dirSq (particle (run [idleInput 1, idleInput 1, armedInput 0 0 1] init) 9)) ∧
    (Reachable (run [idleInput 1, idleInput 1, armedInput 0 0 1] init) ∧
      (dirSq (particle (run [idleInput 1, idleInput 1, armedInput 0 0 1] init) 9) = 1 ∨
        dirSq (particle (run [idleInput 1, idleInput 1, armedInput 0 0 1] init) 9) = 1 / 2 ∨
        dirSq (particle (run [idleInput 1, idleInput 1, armedInput 0 0 1] init) 9) = 5 / 8)) :=
  ⟨⟨by decide, by decide, by decide,
      ((direction_length.1 5 (by decide)).2.1) (by decide) (by decide)⟩,
    ⟨by decide, by decide!,
      direction_length.2.1 _ 3 9 (by decide) (by decide!)⟩,
    ⟨reachable_run _ init Reachable.start,
      direction_length.2.2 _ (reachable_run _ init Reachable.start) 9 (by decide) (by decide!)⟩⟩

/-! ## The reference integrator and the world bounds -/

/-- When neither axis reflects, the step moves the particle by
`direction * PARTICLE_SPEED * time` on each axis and keeps its direction. -/
theorem stepParticle_free (time : ℚ) (p : Particle)
    (hx : -BOUNDARY_WIDTH < p.x + p.dx * PARTICLE_SPEED * time ∧
      p.x + p.dx * PARTICLE_SPEED * time < BOUNDARY_WIDTH)
    (hy : -BOUNDARY_HEIGHT < p.y + p.dy * PARTICLE_SPEED * time ∧
      p.y + p.dy * PARTICLE_SPEED * time < BOUNDARY_HEIGHT) :
    stepParticle time p =
      ⟨p.x + p.dx * PARTICLE_SPEED * time, p.y + p.dy * PARTICLE_SPEED * time, p.dx, p.dy⟩ := by
  have h1 : ¬ (p.x + p.dx * PARTICLE_SPEED * time ≥ BOUNDARY_WIDTH ∨
      p.x + p.dx * PARTICLE_SPEED * time ≤ -BOUNDARY_WIDTH) := by
    rw [not_or, not_le, not_le]; exact ⟨hx.2, hx.1⟩
  have h2 : ¬ (p.y + p.dy * PARTICLE_SPEED * time ≥ BOUNDARY_HEIGHT ∨
      p.y + p.dy * PARTICLE_SPEED * time ≤ -BOUNDARY_HEIGHT) := by
    rw [not_or, not_le, not_le]; exact ⟨hy.2, hy.1⟩
  unfold stepParticle
  simp only [h1, h2, decide_False, Bool.false_eq_true, if_false]

/-- C4. Integrator reference definition: for every live particle and every elapsed
time `dt ≥ 0`, one integration step of the code (the loop of lines 384-397 on the
arrays) gives that particle the position and direction computed by the reference
integrator `advanceRef`: x advanced by `dx * PARTICLE_SPEED * dt` and, on reaching
`±BOUNDARY_WIDTH`, `dx` negated and the new `dx * PARTICLE_SPEED * dt` added; then y
likewise with the particle's own `dy` and `±BOUNDARY_HEIGHT`.  When neither advanced
coordinate reaches its bound the result is
`(x + dx * PARTICLE_SPEED * dt, y + dy * PARTICLE_SPEED * dt)` with the direction
unchanged. -/
theorem integrator_reference (s : State) (dt : ℚ) (k : Int) (_hdt : 0 ≤ dt)
    (h0 : 0 ≤ k) (h1 : k < s.num_particles) :
    particle (integrate dt s) k = advanceRef dt (particle s k) ∧
    ((-BOUNDARY_WIDTH < (particle s k).x + (particle s k).dx * PARTICLE_SPEED * dt ∧
        (particle s k).x + (particle s k).dx * PARTICLE_SPEED * dt < BOUNDARY_WIDTH) →
      (-BOUNDARY_HEIGHT < (particle s k).y + (particle s k).dy * PARTICLE_SPEED * dt ∧
        (particle s k).y + (particle s k).dy * PARTICLE_SPEED * dt < BOUNDARY_HEIGHT) →
      particle (integrate dt s) k =
        ⟨(particle s k).x + (particle s k).dx * PARTICLE_SPEED * dt,
          (particle s k).y + (particle s k).dy * PARTICLE_SPEED * dt,
          (particle s k).dx, (particle s k).dy⟩) := by
  rw [integrate_particle dt s k h0 h1]
  exact ⟨stepParticle_eq_advanceRef dt _, fun hx hy => stepParticle_free dt _ hx hy⟩

theorem integrator_reference_witness :
    (0 : ℚ) ≤ 1 ∧ (0 : Int) ≤ 0 ∧ (0 : Int) < (single ⟨0, 7, 1 / 4, -3 / 4⟩).num_particles ∧
    (-BOUNDARY_WIDTH < (particle (single ⟨0, 7, 1 / 4, -3 / 4⟩) 0).x
        + (particle (single ⟨0, 7, 1 / 4, -3 / 4⟩) 0).dx * PARTICLE_SPEED * 1 ∧
      (particle (single ⟨0, 7, 1 / 4, -3 / 4⟩) 0).x
        + (particle (single ⟨0, 7, 1 / 4, -3 / 4⟩) 0).dx * PARTICLE_SPEED * 1
          < BOUNDARY_WIDTH) ∧
    (-BOUNDARY_HEIGHT < (particle (single ⟨0, 7, 1 / 4, -3 / 4⟩) 0).y
        + (particle (single ⟨0, 7, 1 / 4, -3 / 4⟩) 0).dy * PARTICLE_SPEED * 1 ∧
      (particle (single ⟨0, 7, 1 / 4, -3 / 4⟩) 0).y
        + (particle (single ⟨0, 7, 1 / 4, -3 / 4⟩) 0).dy * PARTICLE_SPEED * 1
          < BOUNDARY_HEIGHT) ∧
    particle (integrate 1 (single ⟨0, 7, 1 / 4, -3 / 4⟩)) 0
      = advanceRef 1 (particle (single ⟨0, 7, 1 / 4, -3 / 4⟩) 0) ∧
    particle (integrate 1 (single ⟨0, 7, 1 / 4, -3 / 4⟩)) 0 =
      ⟨(particle (single ⟨0, 7, 1 / 4, -3 / 4⟩) 0).x
          + (particle (single ⟨0, 7, 1 / 4, -3 / 4⟩) 0).dx * PARTICLE_SPEED * 1,
        (particle (single ⟨0, 7, 1 / 4, -3 / 4⟩) 0).y
          + (particle (single ⟨0, 7, 1 / 4, -3 / 4⟩) 0).dy * PARTICLE_SPEED * 1,
        (particle (single ⟨0, 7, 1 / 4, -3 / 4⟩) 0).dx,
        (particle (single ⟨0, 7, 1 / 4, -3 / 4⟩) 0).dy⟩ :=
  ⟨by decide!, by decide, by decide!, by decide!, by decide!,
    (integrator_reference (single ⟨0, 7, 1 / 4, -3 / 4⟩) 1 0 (by decide!) (by decide)
      (by decide!)).1,
    (integrator_reference (single ⟨0, 7, 1 / 4, -3 / 4⟩) 1 0 (by decide!) (by decide)
      (by decide!)).2 (by decide!) (by decide!)⟩

/-- A particle strictly inside the bounds is strictly inside them after a step, for
every elapsed time: a coordinate that reflects ends the step at its old value. -/
theorem stepParticle_inside (time : ℚ) (p : Particle) (h : insideBounds p) :
    insideBounds (stepParticle time p) := by
  obtain ⟨hx1, hx2, hy1, hy2⟩ := h
  unfold insideBounds
  rcases stepParticle_x time p with ⟨a, b, e, _⟩ | ⟨_, e, _⟩ <;>
    rcases stepParticle_y time p with ⟨c, d, e', _⟩ | ⟨_, e', _⟩ <;>
    rw [e, e'] <;> refine ⟨?_, ?_, ?_, ?_⟩ <;> assumption

theorem integrate_allInside (time : ℚ) (s : State) (h : AllInside s) :
    AllInside (integrate time s) := by
  intro k k0 k1
  rw [(integrate_frame time s).1] at k1
  rw [integrate_particle time s k k0 k1]
  exact stepParticle_inside time _ (h k k0 k1)

theorem spawn_allInside (inp : Input) (s : State) (ha : Aligned s) (h : AllInside s)
    (hin : StoresInside inp) : AllInside (spawn inp s) := by
  by_cases hg : spawnGate inp s = true
  · obtain ⟨h1, h2, h3, _⟩ := spawn_aligned_batch inp s ha hg
    obtain ⟨_, _, _, g4, g5, g6, g7⟩ := (spawnGate_iff inp s).1 hg
    intro k k0 k1
    rw [h1] at k1
    by_cases hk : k < s.num_particles
    · have e : particle (spawn inp s) k = particle s k := by
        unfold particle
        rw [(h3 (2 * k) (by omega)).1, (h3 (2 * k) (by omega)).2,
          (h3 (2 * k + 1) (by omega)).1, (h3 (2 * k + 1) (by omega)).2]
      rw [e]
      exact h k k0 hk
    · have hj : (k - s.num_particles).toNat < batch s := by omega
      have e := h2 (k - s.num_particles).toNat hj
      have ek : s.num_particles + ((k - s.num_particles).toNat : Int) = k := by omega
      rw [ek] at e
      rw [e]
      exact hin ⟨g5, g4, g7, g6⟩
  · rw [spawn_of_not_gate inp s hg]; exact h

theorem frame_allInside (inp : Input) (s : State) (ha : Aligned s) (h : AllInside s)
    (hin : StoresInside inp) : AllInside (frame inp s) := by
  intro k k0 k1
  rw [frame_num] at k1
  rw [frame_particle inp s k k0 k1]
  exact stepParticle_inside _ _ (spawn_allInside inp s ha h hin k k0 k1)

theorem run_allInside (inps : List Input) :
    ∀ s : State, Aligned s → AllInside s → (∀ inp ∈ inps, StoresInside inp) →
      AllInside (run inps s) := by
  induction inps with
  | nil => intro s _ h _; exact h
  | cons inp inps ih =>
    intro s ha h hin
    exact ih (frame inp s) (frame_aligned inp s ha)
      (frame_allInside inp s ha h (hin inp (List.mem_cons_self inp inps)))
      (fun i hi => hin i (List.mem_cons_of_mem inp hi))

theorem castExact_storesInside (inp : Input) (h : CastExact inp) : StoresInside inp := by
  intro hc
  rw [h.1, h.2]
  exact hc

/-- C10. Particles never escape the world bounds, in exact arithmetic.  If before an
integration step every live particle is strictly inside the bounds, then for every
`dt ≥ 0` every live particle is strictly inside them after the step, and a coordinate
whose advance reaches its bound ends the step at its pre-step value.  Hence, from the
initial state, after every sequence of frames in which the position stored by the
spawner is strictly inside the bounds whenever the cursor is, every live particle is
strictly inside the bounds; frames on whose cursor position the narrowing casts of
lines 369-370 are exact are such frames. -/
theorem stays_inside_bounds :
    (∀ (s : State) (dt : ℚ), 0 ≤ dt → AllInside s →
      AllInside (integrate dt s) ∧
      ∀ k : Int, 0 ≤ k → k < s.num_particles →
        ((BOUNDARY_WIDTH ≤ (particle s k).x + (particle s k).dx * PARTICLE_SPEED * dt ∨
            (particle s k).x + (particle s k).dx * PARTICLE_SPEED * dt ≤ -BOUNDARY_WIDTH) →
          (particle (integrate dt s) k).x = (particle s k).x) ∧
        ((BOUNDARY_HEIGHT ≤ (particle s k).y + (particle s k).dy * PARTICLE_SPEED * dt ∨
            (particle s k).y + (particle s k).dy * PARTICLE_SPEED * dt ≤ -BOUNDARY_HEIGHT) →
          (particle (integrate dt s) k).y = (particle s k).y)) ∧
    (∀ inps : List Input, (∀ inp ∈ inps, StoresInside inp) → AllInside (run inps init)) ∧
    (∀ inp : Input, CastExact inp → StoresInside inp) := by
  refine ⟨?_, ?_, castExact_storesInside⟩
  · intro s dt _ h
    refine ⟨integrate_allInside dt s h, ?_⟩
    intro k k0 k1
    rw [integrate_particle dt s k k0 k1]
    constructor
    · intro hit
      rcases stepParticle_x dt (particle s k) with ⟨a, b, _, _⟩ | ⟨_, e, _⟩
      · rcases hit with c | c
        · linarith
        · linarith
      · exact e
    · intro hit
      rcases stepParticle_y dt (particle s k) with ⟨a, b, _, _⟩ | ⟨_, e, _⟩
      · rcases hit with c | c
        · linarith
        · linarith
      · exact e
  · intro inps hin
    refine run_allInside inps init init_aligned ?_ hin
    intro k k0 k1
    have : init.num_particles = 0 := rfl
    omega

theorem single_allInside (p : Particle) (h : insideBounds p) : AllInside (single p) := by
  intro k k0 k1
  have hn : (single p).num_particles = 1 := rfl
  have hk : k = 0 := by omega
  subst hk
  exact h

theorem stays_inside_bounds_witness :
    ((0 : ℚ) ≤ 1 ∧ AllInside (single ⟨BOUNDARY_WIDTH - 1, 0, 1, 0⟩) ∧
      AllInside (integrate 1 (single ⟨BOUNDARY_WIDTH - 1, 0, 1, 0⟩)) ∧
      (0 : Int) < (single ⟨BOUNDARY_WIDTH - 1, 0, 1, 0⟩).num_particles ∧
      (BOUNDARY_WIDTH ≤ (particle (single ⟨BOUNDARY_WIDTH - 1, 0, 1, 0⟩) 0).x
          + (particle (single ⟨BOUNDARY_WIDTH - 1, 0, 1, 0⟩) 0).dx * PARTICLE_SPEED * 1 ∨
        (particle (single ⟨BOUNDARY_WIDTH - 1, 0, 1, 0⟩) 0).x
          + (particle (single ⟨BOUNDARY_WIDTH - 1, 0, 1, 0⟩) 0).dx * PARTICLE_SPEED * 1
            ≤ -BOUNDARY_WIDTH) ∧
      (particle (integrate 1 (single ⟨BOUNDARY_WIDTH - 1, 0, 1, 0⟩)) 0).x
        = (particle (single ⟨BOUNDARY_WIDTH - 1, 0, 1, 0⟩) 0).x) ∧
    ((∀ inp ∈ [idleInput 1, idleInput 1, armedInput 3 4 1], StoresInside inp) ∧
      AllInside (run [idleInput 1, idleInput 1, armedInput 3 4 1] init)) ∧
    (CastExact (armedInput 3 4 1) ∧ StoresInside (armedInput 3 4 1)) :=
  have hs : AllInside (single ⟨BOUNDARY_WIDTH - 1, 0, 1, 0⟩) :=
    single_allInside _ (by unfold insideBounds; decide!)
  have hc : CastExact (armedInput 3 4 1) := by unfold CastExact; decide!
  have hi : ∀ inp ∈ [idleInput 1, idleInput 1, armedInput 3 4 1], StoresInside inp := by
    intro inp hmem
    simp only [List.mem_cons, List.mem_singleton, List.not_mem_nil, or_false] at hmem
    rcases hmem with e | e | e <;> subst e <;> apply castExact_storesInside <;>
      unfold CastExact <;> decide!
  ⟨⟨by decide!, hs, (stays_inside_bounds.1 _ 1 (by decide!) hs).1, by decide!,
      Or.inl (by decide!),
      ((stays_inside_bounds.1 _ 1 (by decide!) hs).2 0 (by decide) (by decide!)).1
        (Or.inl (by decide!))⟩,
    ⟨hi, stays_inside_bounds.2.1 _ hi⟩,
    ⟨hc, stays_inside_bounds.2.2 _ hc⟩⟩

/-- The narrowing cast can put a particle on the bound: the cursor `(0, 999999990)`
is strictly inside the bounds and passes the gate, its y coordinate is stored as
`1000000000 = BOUNDARY_HEIGHT`, and the particle created from table row 0 is still at
`y = BOUNDARY_HEIGHT` at the end of that frame. -/
theorem narrowed_cursor_on_bound :
    toGLfloat 999999990 = BOUNDARY_HEIGHT ∧
    ¬ StoresInside (armedInput 0 999999990 1) ∧
    Reachable (frame (armedInput 0 999999990 1) warmedUp) ∧
    particle (frame (armedInput 0 999999990 1) warmedUp) 0 = ⟨0, BOUNDARY_HEIGHT, 0, -1⟩ := by
  refine ⟨by decide!, ?_,
    Reachable.step _ (Reachable.step _ (Reachable.step _ Reachable.start)), by decide!⟩
  unfold StoresInside
  decide!

/-! ## The narrowing cast stays within the bounds -/

theorem pow2_eq_zpow (k : Int) : pow2 k = (2 : ℚ) ^ k := by
  unfold pow2
  split_ifs with h
  · have e : k = ((k.toNat : Nat) : Int) := (Int.toNat_of_nonneg h).symm
    conv_rhs => rw [e]
    rw [zpow_natCast]
    push_cast
    rfl
  · have e : k = -(((-k).toNat : Nat) : Int) := by omega
    conv_rhs => rw [e]
    rw [zpow_neg, zpow_natCast]
    push_cast
    rw [one_div]

theorem pow2_pos (k : Int) : 0 < pow2 k := by
  rw [pow2_eq_zpow]
  positivity

theorem bitLog_spec : ∀ (fuel n : Nat), 1 ≤ n → n ≤ fuel →
    2 ^ bitLog fuel n ≤ n ∧ n < 2 ^ (bitLog fuel n + 1) := by
  intro fuel
  induction fuel with
  | zero => intro n h1 h2; omega
  | succ fuel ih =>
    intro n h1 h2
    unfold bitLog
    split_ifs with h
    · have : n = 1 := by omega
      subst this
      simp
    · obtain ⟨a, b⟩ := ih (n / 2) (by omega) (by omega)
      rw [pow_succ] at b ⊢
      rw [pow_succ]
      constructor <;> omega

theorem floorLog2_le (x : ℚ) (hx : 0 < x) : (2 : ℚ) ^ floorLog2 x ≤ x := by
  have hnum : 0 < x.num := Rat.num_pos.2 hx
  have hn : ((x.num.natAbs : Nat) : ℚ) = (x.num : ℚ) := by
    have : ((x.num.natAbs : Nat) : Int) = x.num := Int.natAbs_of_nonneg hnum.le
    rw [← Int.cast_natCast, this]
  have hn1 : 1 ≤ x.num.natAbs := by omega
  have hd1 : 1 ≤ x.den := x.den_pos
  obtain ⟨na, _⟩ := bitLog_spec x.num.natAbs x.num.natAbs hn1 le_rfl
  obtain ⟨_, db⟩ := bitLog_spec x.den x.den hd1 le_rfl
  have hdq : (0 : ℚ) < x.den := by exact_mod_cast hd1
  have hx' : x = (x.num.natAbs : ℚ) / x.den := by
    rw [hn, Rat.num_div_den]
  unfold floorLog2
  dsimp only
  generalize bitLog x.num.natAbs x.num.natAbs = a at na ⊢
  generalize bitLog x.den x.den = b at db ⊢
  generalize x.num.natAbs = n at na hx' ⊢
  generalize x.den = d at db hdq hx' ⊢
  have h2a : (0 : ℚ) < 2 ^ a := by positivity
  have h2b : (0 : ℚ) < 2 ^ b := by positivity
  split_ifs with h
  · rw [zpow_sub₀ (by norm_num), zpow_natCast, zpow_natCast, hx',
      div_le_div_iff₀ h2b hdq]
    have : ((d * 2 ^ a : Nat) : ℚ) ≤ ((n * 2 ^ b : Nat) : ℚ) := by exact_mod_cast h
    push_cast at this
    linarith
  · have e : (a : Int) - b - 1 = (a : Int) - ((b + 1 : Nat) : Int) := by push_cast; ring
    rw [e, zpow_sub₀ (by norm_num), zpow_natCast, zpow_natCast, hx',
      div_le_div_iff₀ (by positivity) hdq]
    have h1 : ((2 ^ a : Nat) : ℚ) ≤ (n : ℚ) := by exact_mod_cast na
    have h2 : ((d : Nat) : ℚ) ≤ ((2 ^ (b + 1) : Nat) : ℚ) := by exact_mod_cast db.le
    push_cast at h1 h2
    calc (2 : ℚ) ^ a * d ≤ n * d := by
          exact mul_le_mul_of_nonneg_right h1 hdq.le
      _ ≤ n * 2 ^ (b + 1) := by
          exact mul_le_mul_of_nonneg_left h2 (by positivity)

theorem roundHalfEven_bounds (q : ℚ) :
    ⌊q⌋ ≤ roundHalfEven q ∧ roundHalfEven q ≤ ⌊q⌋ + 1 := by
  unfold roundHalfEven
  split_ifs <;> constructor <;> omega

theorem roundHalfEven_le (q : ℚ) (M : Int) (h : q < M) : roundHalfEven q ≤ M := by
  have h1 : ⌊q⌋ < M := Int.floor_lt.2 h
  have := (roundHalfEven_bounds q).2
  omega

theorem le_roundHalfEven (q : ℚ) (M : Int) (h : (M : ℚ) < q) : M ≤ roundHalfEven q := by
  have h1 : M ≤ ⌊q⌋ := Int.le_floor.2 h.le
  have := (roundHalfEven_bounds q).1
  omega

/-- The bound `10^9` is a multiple of every spacing `2 ^ k` with `k ≤ 6`. -/
theorem bound_multiple (k : Int) (hk : k ≤ 6) :
    ∃ M : Int, (1000000000 : ℚ) = (M : ℚ) * pow2 k := by
  refine ⟨15625000 * 2 ^ (6 - k).toNat, ?_⟩
  rw [pow2_eq_zpow]
  push_cast
  have e : ((2 : ℚ) ^ (6 - k).toNat) = (2 : ℚ) ^ (6 - k) := by
    rw [← zpow_natCast, Int.toNat_of_nonneg (by omega)]
  rw [e, mul_assoc, ← zpow_add₀ (by norm_num : (2 : ℚ) ≠ 0)]
  have e6 : 6 - k + k = 6 := by ring
  rw [e6]
  norm_num

theorem floorLog2_le_29 (x : ℚ) (h0 : 0 < x) (h : x < 1000000000) : floorLog2 x ≤ 29 := by
  by_contra hc
  have h30 : (30 : Int) ≤ floorLog2 x := by omega
  have h1 : (2 : ℚ) ^ (30 : Int) ≤ (2 : ℚ) ^ floorLog2 x :=
    zpow_le_zpow_right₀ (by norm_num) h30
  have h2 := floorLog2_le x h0
  have h3 : (2 : ℚ) ^ (30 : Int) = 1073741824 := by norm_num
  linarith

/-- A cursor coordinate strictly inside `(-10^9, 10^9)` is narrowed to a value in
`[-10^9, 10^9]`. -/
theorem toGLfloat_bounds (x : ℚ) (h1 : -1000000000 < x) (h2 : x < 1000000000) :
    -1000000000 ≤ toGLfloat x ∧ toGLfloat x ≤ 1000000000 := by
  unfold toGLfloat
  split_ifs with hx
  · constructor <;> norm_num
  · have habs : 0 < |x| := abs_pos.2 hx
    have habs2 : |x| < 1000000000 := abs_lt.2 ⟨h1, h2⟩
    have he := floorLog2_le_29 |x| habs habs2
    obtain ⟨M, hM⟩ := bound_multiple (max (floorLog2 |x|) (-126) - 23) (by omega)
    have hu := pow2_pos (max (floorLog2 |x|) (-126) - 23)
    generalize pow2 (max (floorLog2 |x|) (-126) - 23) = u at hM hu ⊢
    have hlt : x / u < (M : ℚ) := by
      rw [div_lt_iff₀ hu]; linarith
    have hgt : ((-M : Int) : ℚ) < x / u := by
      rw [lt_div_iff₀ hu]; push_cast; linarith
    have r1 := roundHalfEven_le (x / u) M hlt
    have r2 := le_roundHalfEven (x / u) (-M) hgt
    have q1 : ((roundHalfEven (x / u) : Int) : ℚ) ≤ (M : ℚ) := by exact_mod_cast r1
    have q2 : ((-M : Int) : ℚ) ≤ ((roundHalfEven (x / u) : Int) : ℚ) := by exact_mod_cast r2
    push_cast at q2
    constructor
    · have := mul_le_mul_of_nonneg_right q2 hu.le
      linarith
    · have := mul_le_mul_of_nonneg_right q1 hu.le
      linarith

/-! ## The closed bounds with the narrowing cast -/

theorem stepParticle_within (time : ℚ) (p : Particle) (h : withinBounds p) :
    withinBounds (stepParticle time p) := by
  obtain ⟨hx1, hx2, hy1, hy2⟩ := h
  unfold withinBounds
  rcases stepParticle_x time p with ⟨a, b, e, _⟩ | ⟨_, e, _⟩ <;>
    rcases stepParticle_y time p with ⟨c, d, e', _⟩ | ⟨_, e', _⟩ <;>
    rw [e, e'] <;> refine ⟨?_, ?_, ?_, ?_⟩ <;> first | assumption | exact le_of_lt ‹_›

theorem spawn_allWithin (inp : Input) (s : State) (ha : Aligned s) (h : AllWithin s) :
    AllWithin (spawn inp s) := by
  by_cases hg : spawnGate inp s = true
  · obtain ⟨h1, h2, h3, _⟩ := spawn_aligned_batch inp s ha hg
    obtain ⟨_, _, _, g4, g5, g6, g7⟩ := (spawnGate_iff inp s).1 hg
    intro k k0 k1
    rw [h1] at k1
    by_cases hk : k < s.num_particles
    · have e : particle (spawn inp s) k = particle s k := by
        unfold particle
        rw [(h3 (2 * k) (by omega)).1, (h3 (2 * k) (by omega)).2,
          (h3 (2 * k + 1) (by omega)).1, (h3 (2 * k + 1) (by omega)).2]
      rw [e]
      exact h k k0 hk
    · have hj : (k - s.num_particles).toNat < batch s := by omega
      have e := h2 (k - s.num_particles).toNat hj
      have ek : s.num_particles + ((k - s.num_particles).toNat : Int) = k := by omega
      rw [ek] at e
      rw [e]
      unfold BOUNDARY_WIDTH at g4 g5
      unfold BOUNDARY_HEIGHT at g6 g7
      obtain ⟨x1, x2⟩ := toGLfloat_bounds inp.xpos g5 g4
      obtain ⟨y1, y2⟩ := toGLfloat_bounds inp.ypos g7 g6
      unfold withinBounds BOUNDARY_WIDTH BOUNDARY_HEIGHT
      exact ⟨x1, x2, y1, y2⟩
  · rw [spawn_of_not_gate inp s hg]; exact h

/-- With the narrowing cast as it is, every live particle of every reachable state is
within the closed world bounds. -/
theorem reachable_allWithin (s : State) (hr : Reachable s) : AllWithin s := by
  induction hr with
  | start =>
    intro k k0 k1
    have : init.num_particles = 0 := rfl
    omega
  | @step s inp hs ih =>
    intro k k0 k1
    rw [frame_num] at k1
    rw [frame_particle inp s k k0 k1]
    exact stepParticle_within _ _ (spawn_allWithin inp s (reachable_aligned s hs) ih k k0 k1)

end Instancing
